import Mathlib

/-!
Verification of the article-digest pipeline: the summarizer's response
parser and formatter (src/summarizer.py) and the scraper's link discovery,
article extraction, robots check and orchestration (src/scraper.py).

Strings are modelled as lists of characters (`Line`), and the Python
string primitives used by the code (`strip`, `startswith`, `in`,
`replace`, `split`, `lower`, `isdigit`) are given executable definitions
mirroring CPython semantics on the inputs the code feeds them.
-/

namespace ADigest

/-- A Python string, modelled as a list of characters. -/
abbrev Line := List Char

/-- Whitespace characters stripped by Python `str.strip()` (ASCII range). -/
def isPySpace (c : Char) : Bool :=
  c = ' ' || c = '\t' || c = '\n' || c = '\x0d' || c = '\x0b' || c = '\x0c'

/-- Python `s.strip()`: remove leading and trailing whitespace. -/
def pyStrip (s : Line) : Line :=
  ((s.dropWhile isPySpace).reverse.dropWhile isPySpace).reverse

/-- Python `s.startswith(p)`. -/
def startsWithL (s p : Line) : Bool := p.isPrefixOf s

/-- Python `pat in s` (substring containment). -/
def containsSub (s pat : Line) : Bool :=
  match s with
  | [] => pat.isEmpty
  | _ :: tail => pat.isPrefixOf s || containsSub tail pat

/-- Fuel-driven worker for `replaceAll`; fuel bounds the number of scanned
positions, `s.length` is always enough. -/
def replaceAllFuel : Nat → Line → Line → Line → Line
  | 0, s, _, _ => s
  | _ + 1, [], _, _ => []
  | n + 1, c :: tail, pat, rep =>
    if !pat.isEmpty && pat.isPrefixOf (c :: tail) then
      rep ++ replaceAllFuel n ((c :: tail).drop pat.length) pat rep
    else
      c :: replaceAllFuel n tail pat rep

/-- Python `s.replace(pat, rep)` for a non-empty `pat`: replace every
(left-to-right, non-overlapping) occurrence. For an empty `pat` this
returns `s` unchanged; the program never calls `replace` with an empty
pattern. -/
def replaceAll (s pat rep : Line) : Line := replaceAllFuel s.length s pat rep

/-- Python `s.split(pat, 1)` for non-empty `pat`: `[before, after]` at the
first occurrence, else `[s]`. -/
def pySplit1 (s pat : Line) : List Line :=
  match s with
  | [] => [[]]
  | c :: tail =>
    if pat.isPrefixOf (c :: tail) then [[], (c :: tail).drop pat.length]
    else
      match pySplit1 tail pat with
      | [] => [[c]]
      | h :: t => (c :: h) :: t

/-- Python `s.split(sep)` for a single-character separator `sep`. -/
def splitOnChar (sep : Char) : Line → List Line
  | [] => [[]]
  | c :: tail =>
    if c = sep then [] :: splitOnChar sep tail
    else
      match splitOnChar sep tail with
      | [] => [[c]]
      | h :: t => (c :: h) :: t

/-- Python `sep_char.join(pieces)` specialised to a one-character
separator. -/
def joinWith (sep : Char) : List Line → Line
  | [] => []
  | [l] => l
  | l :: ls => l ++ sep :: joinWith sep ls

/-- Worker for `pyWords`: the accumulator holds the current word reversed. -/
def pyWordsAux : Line → Line → List Line
  | [], acc => if acc.isEmpty then [] else [acc.reverse]
  | c :: rest, acc =>
    if isPySpace c then
      if acc.isEmpty then pyWordsAux rest [] else acc.reverse :: pyWordsAux rest []
    else pyWordsAux rest (c :: acc)

/-- Python `s.split()` with no argument: whitespace-run separated words,
no empty pieces. -/
def pyWords (s : Line) : List Line := pyWordsAux s []

/-- Python `" ".join(s.split())`: collapse whitespace runs. -/
def normWs (s : Line) : Line := joinWith ' ' (pyWords s)

/-- Python `s.lower()` (ASCII case fold, which is all the code relies on). -/
def lowerL (s : Line) : Line := s.map Char.toLower

/-! ### Data model (src/scraper.py `Article`, src/summarizer.py parse result) -/

/-- The `Article` dataclass of src/scraper.py. -/
structure Article where
  title : Line
  author : Line
  content : Line
  url : Line
deriving DecidableEq

/-- The grammar tokens of the LLM reply (src/summarizer.py). -/
def tokHeadline : Line := ("HEADLINE:").data

def tokCombined : Line := ("COMBINED_SUMMARY:").data

def tokArticleSummaries : Line := ("ARTICLE_SUMMARIES:").data

def tokSocialPosts : Line := ("SOCIAL_POSTS:").data

def tokTitle : Line := ("TITLE:").data

def tokAuthor : Line := ("AUTHOR:").data

def tokSummary : Line := ("SUMMARY:").data

def tokNumTitle : Line := (". TITLE:").data

def tokPostHeadline : Line := ("POST_HEADLINE:").data

def tokNumPostHeadline : Line := (". POST_HEADLINE:").data

def tokPostSummary : Line := ("POST_SUMMARY:").data

def tokOnePrefix : Line := ("1.").data

def tokDot : Line := (".").data

/-- The `current_section` variable of `_parse_response`: `initial` models the
Python `None`. -/
inductive PSection where
  | initial
  | headline
  | combined
  | articles
  | social
deriving DecidableEq

/-- The `current_article` dict of `_parse_response`: a partial record whose
keys (`title`, `author`, `summary`) may each be absent. -/
structure PArt where
  title : Option Line := none
  author : Option Line := none
  summary : Option Line := none
deriving DecidableEq

/-- The `current_post` dict of `_parse_response`. -/
structure PPost where
  headline : Option Line := none
  summary : Option Line := none
deriving DecidableEq

/-- An entry of `result["article_summaries"]` after URL backfill: the three
parsed keys plus the optional backfilled `url` key. -/
structure SumRec where
  title : Option Line
  author : Option Line
  summary : Option Line
  url : Option Line
deriving DecidableEq

/-- An entry of `result["social_posts"]` after URL backfill. -/
structure PostRec where
  headline : Option Line
  summary : Option Line
  url : Option Line
deriving DecidableEq

/-- The `result` dict returned by `_parse_response`. -/
structure PyDigest where
  headline : Line
  combined : Line
  articleSummaries : List SumRec
  socialPosts : List PostRec
deriving DecidableEq

/-- Runtime errors the Python parser could in principle raise: an
out-of-range index (`line[0]` on an empty string, `split(...)[1]` with no
separator occurrence). The totality theorem shows they never occur. -/
inductive PErr where
  | indexError
deriving DecidableEq

/-- The loop state of `_parse_response`: the partially built `result`
fields plus `current_section`, `current_article`, `current_post`. -/
structure PState where
  rHeadline : Line
  rCombined : Line
  rArticles : List PArt
  rPosts : List PPost
  sec : PSection
  curArt : PArt
  curPost : PPost
deriving DecidableEq

/-- Python truthiness of the `current_article` dict: non-empty iff some key
was ever set. -/
def pArtNonempty (a : PArt) : Bool :=
  a.title.isSome || a.author.isSome || a.summary.isSome

/-- Python truthiness of the `current_post` dict. -/
def pPostNonempty (p : PPost) : Bool :=
  p.headline.isSome || p.summary.isSome

/-- `if current_article: result["article_summaries"].append(current_article)`. -/
def flushArt (arts : List PArt) (cur : PArt) : List PArt :=
  if pArtNonempty cur then arts ++ [cur] else arts

/-- `if current_post: result["social_posts"].append(current_post)`. -/
def flushPost (posts : List PPost) (cur : PPost) : List PPost :=
  if pPostNonempty cur then posts ++ [cur] else posts

/-- Python list indexing `xs[1]`, raising on a too-short list. -/
def idx1 : List Line → Except PErr Line
  | _ :: b :: _ => .ok b
  | _ => .error .indexError

/-- `line.split(tok, 1)[1].strip() if tok in line else ""` — the dict
initialisers of the numbered `TITLE:` / `POST_HEADLINE:` branches. -/
def splitTailE (line tok : Line) : Except PErr Line :=
  if containsSub line tok then (idx1 (pySplit1 line tok)).map pyStrip
  else .ok []

/-- The `current_section == "articles"` branch of the parser loop
(src/summarizer.py lines 317-334). The empty-line arm models `line[0]`
raising on an empty string; it is unreachable because blank lines are
skipped earlier. -/
def articlesStep (st : PState) (line : Line) : Except PErr PState :=
  match line with
  | [] => .error .indexError
  | c :: rest =>
    if c.isDigit && containsSub (c :: rest) tokNumTitle then
      match splitTailE (c :: rest) tokTitle with
      | .error e => .error e
      | .ok tv =>
        .ok { st with rArticles := flushArt st.rArticles st.curArt,
                      curArt := { title := some tv } }
    else if startsWithL (c :: rest) tokTitle then
      .ok { st with rArticles := flushArt st.rArticles st.curArt,
                    curArt := { title := some (pyStrip (replaceAll (c :: rest) tokTitle [])) } }
    else if startsWithL (c :: rest) tokAuthor then
      .ok { st with curArt := { st.curArt with author := some (pyStrip (replaceAll (c :: rest) tokAuthor [])) } }
    else if startsWithL (c :: rest) tokSummary then
      .ok { st with curArt := { st.curArt with summary := some (pyStrip (replaceAll (c :: rest) tokSummary [])) } }
    else
      match st.curArt.summary with
      | some s =>
        if !startsWithL (c :: rest) tokTitle && !startsWithL (c :: rest) tokAuthor
            && !startsWithL (c :: rest) tokSummary && !startsWithL (c :: rest) tokSocialPosts then
          .ok { st with curArt := { st.curArt with summary := some (s ++ ' ' :: (c :: rest)) } }
        else .ok st
      | none => .ok st

/-- The `current_section == "social_posts"` branch of the parser loop
(src/summarizer.py lines 335-350). -/
def socialStep (st : PState) (line : Line) : Except PErr PState :=
  match line with
  | [] => .error .indexError
  | c :: rest =>
    if c.isDigit && containsSub (c :: rest) tokNumPostHeadline then
      match splitTailE (c :: rest) tokPostHeadline with
      | .error e => .error e
      | .ok hv =>
        .ok { st with rPosts := flushPost st.rPosts st.curPost,
                      curPost := { headline := some hv } }
    else if startsWithL (c :: rest) tokPostHeadline then
      .ok { st with rPosts := flushPost st.rPosts st.curPost,
                    curPost := { headline := some (pyStrip (replaceAll (c :: rest) tokPostHeadline [])) } }
    else if startsWithL (c :: rest) tokPostSummary then
      .ok { st with curPost := { st.curPost with summary := some (pyStrip (replaceAll (c :: rest) tokPostSummary [])) } }
    else
      match st.curPost.summary with
      | some s =>
        if !startsWithL (c :: rest) tokPostHeadline && !startsWithL (c :: rest) tokPostSummary
            && !(c.isDigit && containsSub (c :: rest) tokDot) then
          .ok { st with curPost := { st.curPost with summary := some (s ++ ' ' :: (c :: rest)) } }
        else .ok st
      | none => .ok st

/-- One iteration of the `for line in lines` loop of `_parse_response`
(src/summarizer.py lines 294-350). -/
def processLineE (st : PState) (rawLine : Line) : Except PErr PState :=
  let line := pyStrip rawLine
  if line.isEmpty then .ok st
  else if startsWithL line tokHeadline then
    .ok { st with rHeadline := pyStrip (replaceAll line tokHeadline []), sec := .headline }
  else if startsWithL line tokCombined then
    .ok { st with rCombined := pyStrip (replaceAll line tokCombined []), sec := .combined }
  else if startsWithL line tokArticleSummaries then
    .ok { st with sec := .articles }
  else if startsWithL line tokSocialPosts then
    .ok { st with rArticles := flushArt st.rArticles st.curArt, curArt := {}, sec := .social }
  else
    match st.sec with
    | .combined =>
      if !startsWithL line tokHeadline && !startsWithL line tokArticleSummaries
          && !startsWithL line tokOnePrefix && !startsWithL line tokTitle then
        .ok { st with rCombined := st.rCombined ++ ' ' :: line }
      else .ok st
    | .articles => articlesStep st line
    | .social => socialStep st line
    | _ => .ok st

/-- The whole `for line in lines` loop. -/
def runLines (st : PState) : List Line → Except PErr PState
  | [] => .ok st
  | l :: ls =>
    match processLineE st l with
    | .error e => .error e
    | .ok st' => runLines st' ls

/-- The state at loop entry. -/
def initState : PState :=
  { rHeadline := [], rCombined := [], rArticles := [], rPosts := [],
    sec := .initial, curArt := {}, curPost := {} }

/-- URL backfill for article summaries (src/summarizer.py lines 359-361):
`summary["url"] = articles[i].url` only when `i < len(articles)`. -/
def backfillArts (recs : List PArt) (articles : List Article) : List SumRec :=
  recs.mapIdx fun i r =>
    { title := r.title, author := r.author, summary := r.summary,
      url := (articles[i]?).map Article.url }

/-- URL backfill for social posts (src/summarizer.py lines 364-366). -/
def backfillPosts (posts : List PPost) (articles : List Article) : List PostRec :=
  posts.mapIdx fun i p =>
    { headline := p.headline, summary := p.summary,
      url := (articles[i]?).map Article.url }

/-- `DigestGenerator._parse_response` (src/summarizer.py lines 280-371):
strip and split the reply, run the line loop, flush the open records,
backfill URLs by position and normalise the combined summary. The
`output_type` parameter of the Python method is unused by its body and is
omitted. -/
def parseResponse (response : Line) (articles : List Article) : Except PErr PyDigest :=
  match runLines initState (splitOnChar '\n' (pyStrip response)) with
  | .error e => .error e
  | .ok st =>
    .ok { headline := st.rHeadline,
          combined := normWs st.rCombined,
          articleSummaries := backfillArts (flushArt st.rArticles st.curArt) articles,
          socialPosts := backfillPosts (flushPost st.rPosts st.curPost) articles }

/-! ### `DigestGenerator.format_digest` (src/summarizer.py lines 373-405) -/

/-- `MAX_SUMMARY_WORDS` from src/config.py. -/
def MAX_SUMMARY_WORDS : Nat := 50

def defaultTitle : Line := ("Untitled").data

def defaultAuthor : Line := ("Unknown Author").data

def tokEllipsis : Line := ("...").data

/-- The word-limit enforcement of `format_digest` (src/summarizer.py lines
395-398): over-long summaries become their first `MAX_SUMMARY_WORDS`
words joined by single spaces, with `"..."` appended. -/
def enforceWordLimit (summary : Line) : Line :=
  let words := pyWords summary
  if MAX_SUMMARY_WORDS < words.length then
    joinWith ' ' (words.take MAX_SUMMARY_WORDS) ++ tokEllipsis
  else summary

/-- The numbered per-article blocks of `format_digest`, starting at
index `i` (the Python `enumerate(digest["article_summaries"], 1)`). -/
def articleBlocks : Nat → List SumRec → List Line
  | _, [] => []
  | i, r :: rest =>
    ((Nat.repr i).data ++ (". **").data ++ r.title.getD defaultTitle ++ ("**").data)
      :: []
      :: ('*' :: r.author.getD defaultAuthor ++ ('*' :: ' ' :: enforceWordLimit (r.summary.getD [])))
      :: []
      :: articleBlocks (i + 1) rest

/-- The `output` list built by `format_digest` before the final join. -/
def formatDigestLines (d : PyDigest) : List Line :=
  [d.headline, []]
    ++ (if d.combined.isEmpty then [] else [d.combined, []])
    ++ [("Articles").data, []]
    ++ articleBlocks 1 d.articleSummaries

/-- `DigestGenerator.format_digest`: `"\n".join(output)`. -/
def formatDigest (d : PyDigest) : Line := joinWith '\n' (formatDigestLines d)

/-! ### URL helpers (urllib.parse, as used by src/scraper.py)

`urlparse` and `urljoin` are standard-library calls; they are modelled
from their documented behaviour on the URL shapes the scraper handles
(absolute http/https URLs, root-relative and relative hrefs). Only the
`netloc` and `path` components are consumed by the code under test. -/

def tokSchemeSep : Line := ("://").data

/-- The substring after the first `"://"`, if any. -/
def afterScheme (url : Line) : Option Line :=
  if containsSub url tokSchemeSep then idx1 (pySplit1 url tokSchemeSep) |>.toOption
  else none

/-- `urlparse(url).netloc`: the authority between `"://"` and the first
`/`, `?` or `#`; empty when the URL has no `"://"`. -/
def netlocOf (url : Line) : Line :=
  match afterScheme url with
  | some rest => rest.takeWhile fun c => !(c = '/' || c = '?' || c = '#')
  | none => []

/-- `urlparse(url).path` (query and fragment removed). -/
def pathOf (url : Line) : Line :=
  match afterScheme url with
  | some rest =>
    ((rest.dropWhile fun c => !(c = '/' || c = '?' || c = '#')).takeWhile
      fun c => !(c = '?' || c = '#'))
  | none => url.takeWhile fun c => !(c = '?' || c = '#')

/-- The scheme-plus-authority prefix of an absolute URL, e.g.
`"http://example.com"`. -/
def schemeNetloc (url : Line) : Line :=
  match pySplit1 url tokSchemeSep with
  | a :: _ :: _ => a ++ tokSchemeSep ++ netlocOf url
  | _ => url

/-- `urljoin(base, href)` modelled for the href shapes the scraper meets:
an absolute URL is returned as is, a root-relative path is joined onto
the base's scheme and authority; other relative hrefs are appended after
a slash (an approximation — the properties proved below never depend on
relative resolution). -/
def urljoin (base href : Line) : Line :=
  if href.isEmpty then base
  else if containsSub href tokSchemeSep then href
  else if startsWithL href ("/").data then schemeNetloc base ++ href
  else base ++ ('/' :: href)

/-! ### `ArticleScraper._check_robots_txt` (src/scraper.py lines 55-72) -/

def tokUAStar : Line := ("user-agent: *").data

def tokDisallowSlash : Line := ("disallow: /").data

/-- The inner window scan: `for j in range(i + 1, min(i + 5, len(lines)))`
looks at the 4 lines after the matching `user-agent: *` line and fires on
an exact (stripped) `disallow: /`. -/
def robotsWindowHit (rest : List Line) : Bool :=
  (rest.take 4).any fun l => pyStrip l = tokDisallowSlash

/-- The outer scan: any line containing `user-agent: *` whose window hits
means scraping is disallowed (the Python `return False`). -/
def robotsBlocked : List Line → Bool
  | [] => false
  | l :: rest => (containsSub l tokUAStar && robotsWindowHit rest) || robotsBlocked rest

/-- `ArticleScraper._check_robots_txt`. The robots.txt fetch is modelled as
an optional `(status_code, body)` pair; `none` models a
`requests.RequestException`, which the `except` arm turns into `True`. -/
def checkRobotsTxt (fetched : Option (Nat × Line)) : Bool :=
  match fetched with
  | none => true
  | some (status, body) =>
    if status = 200 then
      let content := lowerL body
      if containsSub content tokDisallowSlash && containsSub content tokUAStar then
        !robotsBlocked (splitOnChar '\n' content)
      else true
    else true

/-! ### `ArticleScraper._is_article_url` (src/scraper.py lines 148-160) -/

/-- The `skip_patterns` list of `_is_article_url`, in source order. -/
def skipPatterns : List Line :=
  [("/tag/").data, ("/tags/").data, ("/category/").data, ("/categories/").data,
   ("/author/").data, ("/page/").data, ("/search").data, ("/login").data, ("/signup").data,
   ("/contact").data, ("/about").data, ("/privacy").data, ("/terms").data, ("/subscribe").data,
   ("/feed").data, ("/rss").data, ("#").data, ("javascript:").data, ("mailto:").data,
   ("/blog-tag/").data, ("/blog-category/").data, ("/blog-author/").data,
   ("-tag/").data, ("-category/").data, ("-author/").data]

/-- `ArticleScraper._is_article_url`: no skip pattern occurs in the
lower-cased URL. -/
def isArticleUrl (url : Line) : Bool :=
  let urlLower := lowerL url
  !(skipPatterns.any fun pat => containsSub urlLower pat)

/-! ### `ArticleScraper._extract_article_links` (src/scraper.py lines 162-270)

The BeautifulSoup queries are modelled as data: for each selector of
strategies 1 and 2, the list of matched cards/containers, each reduced to
the `href` of its first anchor (`none` when the card has no anchor); for
strategy 3 the anchors of the detected main-content region (`none` when
no such region exists); for strategy 4 all anchors of the page. -/

structure SoupDoc where
  cardSelCards : List (List (Option Line))
  containerSelCards : List (List (Option Line))
  mainContentAnchors : Option (List Line)
  allAnchors : List Line

/-- The shared per-card body of strategies 1 and 2: resolve the first
anchor's href and append it when it passes the article filter, the
same-domain check and the exact-string dedup. -/
def addCardLink (baseUrl baseDomain : Line) (links : List Line)
    (cardHref : Option Line) : List Line :=
  match cardHref with
  | none => links
  | some href =>
    let fullUrl := urljoin baseUrl href
    if isArticleUrl fullUrl && containsSub (netlocOf fullUrl) baseDomain
        && !links.contains fullUrl then
      links ++ [fullUrl]
    else links

/-- The selector loop shared by strategies 1 and 2: skip selectors with no
matches, process the first selector with matches, and stop as soon as the
accumulated link list is non-empty. -/
def cardStrategy (baseUrl baseDomain : Line) :
    List (List (Option Line)) → List Line → List Line
  | [], links => links
  | cards :: rest, links =>
    if cards.isEmpty then cardStrategy baseUrl baseDomain rest links
    else
      let links' := cards.foldl (addCardLink baseUrl baseDomain) links
      if links'.isEmpty then cardStrategy baseUrl baseDomain rest links' else links'

/-- Strategy 3's per-anchor body: additionally requires at least one
non-empty path segment. -/
def addMainLink (baseUrl baseDomain : Line) (links : List Line) (href : Line) : List Line :=
  let fullUrl := urljoin baseUrl href
  let pathParts := (splitOnChar '/' (pathOf fullUrl)).filter fun p => !p.isEmpty
  if 1 ≤ pathParts.length && (isArticleUrl fullUrl
      && containsSub (netlocOf fullUrl) baseDomain && !links.contains fullUrl) then
    links ++ [fullUrl]
  else links

def tokBlog : Line := ("blog").data

def tokArticles : Line := ("articles").data

def tokPosts : Line := ("posts").data

/-- Strategy 4's per-anchor body: same domain, article-like, not a bare
index path, at least two path segments. -/
def addWholePageLink (baseUrl baseDomain : Line) (links : List Line) (href : Line) : List Line :=
  let fullUrl := urljoin baseUrl href
  if !containsSub (netlocOf fullUrl) baseDomain then links
  else if !isArticleUrl fullUrl then links
  else
    let path := lowerL (pathOf fullUrl)
    let pathParts := (splitOnChar '/' path).filter fun p => !p.isEmpty
    if pathParts = [tokBlog] || pathParts = [tokArticles] || pathParts = [tokPosts] then links
    else if 2 ≤ pathParts.length then
      if !links.contains fullUrl then links ++ [fullUrl] else links
    else links

/-- `ArticleScraper._extract_article_links`: the four-strategy cascade,
each later strategy running only when the previous ones produced no
links. -/
def extractArticleLinks (baseUrl : Line) (doc : SoupDoc) : List Line :=
  let baseDomain := netlocOf baseUrl
  let l1 := cardStrategy baseUrl baseDomain doc.cardSelCards []
  let l2 := if l1.isEmpty then cardStrategy baseUrl baseDomain doc.containerSelCards l1 else l1
  let l3 :=
    if l2.isEmpty then
      match doc.mainContentAnchors with
      | some hrefs => hrefs.foldl (addMainLink baseUrl baseDomain) l2
      | none => l2
    else l2
  if l3.isEmpty then doc.allAnchors.foldl (addWholePageLink baseUrl baseDomain) l3 else l3

/-! ### `ArticleScraper._clean_author_name` (src/scraper.py lines 85-146) -/

/-- First occurrence index of `pat` in `s` (Python `str.find` restricted
to found results). -/
def findSub : Line → Line → Option Nat
  | s, pat =>
    match s with
    | [] => if pat.isEmpty then some 0 else none
    | c :: tail =>
      if pat.isPrefixOf (c :: tail) then some 0
      else (findSub tail pat).map (· + 1)

/-- The `while lower_pattern in lower_author` removal loop, fuel-driven;
each iteration removes one case-insensitive occurrence, so `a.length`
fuel always suffices for the non-empty patterns the code uses. -/
def removeCIFuel : Nat → Line → Line → Line
  | 0, a, _ => a
  | n + 1, a, pat =>
    match findSub (lowerL a) (lowerL pat) with
    | none => a
    | some i => removeCIFuel n (a.take i ++ a.drop (i + pat.length)) pat

/-- Case-insensitive removal of every occurrence of `pat`. -/
def removeCI (a pat : Line) : Line := removeCIFuel a.length a pat

/-- The boilerplate pattern list of `_clean_author_name`, in source order. -/
def removePatterns : List Line :=
  [("About the Author").data, ("About the Authors").data, ("About").data,
   ("Follow on Twitter").data, ("Follow on X").data, ("Follow").data,
   ("Subscribe").data, ("Share").data, ("Twitter").data, ("Facebook").data,
   ("LinkedIn").data, ("Email").data, ("More articles").data, ("View all posts").data,
   ("Read more").data, ("Contact").data, (" | ").data, (" - ").data]

/-- Stable insertion for descending-length order, matching Python's stable
`sort(key=len, reverse=True)`. -/
def insertByLenDesc (x : Line) : List Line → List Line
  | [] => [x]
  | y :: ys => if y.length ≤ x.length then x :: y :: ys else y :: insertByLenDesc x ys

/-- `remove_patterns.sort(key=len, reverse=True)`. -/
def sortByLenDesc (ls : List Line) : List Line := ls.foldr insertByLenDesc []

/-- The separator loop of the length-60 fallback: truncate at the first
separator whose leading part is non-empty and under 50 characters. -/
def trySeps : List Line → Line → Line
  | [], a => a
  | sep :: rest, a =>
    if containsSub a sep then
      let p0 := pyStrip ((pySplit1 a sep).headD a)
      if !p0.isEmpty && p0.length < 50 then p0 else trySeps rest a
    else trySeps rest a

/-- The punctuation set of the final `strip(".,;:-|/\\\"'")`. -/
def stripPunct (c : Char) : Bool :=
  c = '.' || c = ',' || c = ';' || c = ':' || c = '-' || c = '|' || c = '/'
    || c = '\\' || c = '\"' || c = '\''

/-- `ArticleScraper._clean_author_name`. -/
def cleanAuthorName (author : Line) : Line :=
  if author.isEmpty then []
  else
    let a := replaceAll author (("By ").data) []
    let a := replaceAll a (("by ").data) []
    let a := replaceAll a (("Written by ").data) []
    let a := replaceAll a (("written by ").data) []
    let a := replaceAll a (("Author: ").data) []
    let a := replaceAll a (("author: ").data) []
    let a := (sortByLenDesc removePatterns).foldl removeCI a
    let a := pyStrip (normWs a)
    let a := if 60 < a.length then trySeps [(",").data, (" and ").data, (" & ").data, tokDot] a else a
    let a := ((a.dropWhile stripPunct).reverse.dropWhile stripPunct).reverse
    pyStrip a

/-! ### `ArticleScraper._scrape_article_page` (src/scraper.py lines 272-377)

The fetched document is modelled as data: for each selector of the three
cascades, the `_extract_text` result of its `select_one` match (`none`
when the selector matches nothing). A content match carries both its
paragraph texts and its own whole-element text; the fallback region
carries its paragraph texts (`none` when no `article`/`main`/`.post`
element exists). -/

structure ContentElem where
  paragraphs : List Line
  elemText : Line
deriving DecidableEq

structure Page where
  titleMatches : List (Option Line)
  authorMatches : List (Option Line)
  contentMatches : List (Option ContentElem)
  fallbackParagraphs : Option (List Line)

/-- The title cascade (src/scraper.py lines 280-295): `title` keeps the
text of every selector match in turn and the loop breaks at the first
non-empty match under 300 characters. -/
def titleLoop : List (Option Line) → Line → Line
  | [], acc => acc
  | none :: rest, acc => titleLoop rest acc
  | some t :: rest, _ =>
    if !t.isEmpty && t.length < 300 then t else titleLoop rest t

def titleOf (p : Page) : Line := titleLoop p.titleMatches []

/-- The author cascade (src/scraper.py lines 297-317): each match is
cleaned, the loop breaks at the first non-empty cleaned value under 100
characters, and an empty final value becomes `"Unknown Author"`. -/
def authorLoop : List (Option Line) → Line → Line
  | [], acc => acc
  | none :: rest, acc => authorLoop rest acc
  | some raw :: rest, _ =>
    let a := cleanAuthorName raw
    if !a.isEmpty && a.length < 100 then a else authorLoop rest a

def authorOf (p : Page) : Line :=
  let a := authorLoop p.authorMatches []
  if a.isEmpty then defaultAuthor else a

/-- `" ".join(extract_text(p) for p in paragraphs if extract_text(p))`. -/
def joinParagraphs (ps : List Line) : Line :=
  joinWith ' ' (ps.filter fun t => !t.isEmpty)

/-- The content cascade (src/scraper.py lines 319-356): paragraph-joined
text when the match has paragraphs, else the element's own text; the loop
breaks at the first value over 200 characters, keeping the last computed
value otherwise. -/
def contentLoop : List (Option ContentElem) → Line → Line
  | [], acc => acc
  | none :: rest, acc => contentLoop rest acc
  | some e :: rest, _ =>
    let c := if !e.paragraphs.isEmpty then joinParagraphs e.paragraphs else e.elemText
    if !c.isEmpty && 200 < c.length then c else contentLoop rest c

/-- The content result after the fallback pass (src/scraper.py lines
358-363): when the cascade's value is empty or under 200 characters and a
fallback region exists, its joined paragraphs replace the value. -/
def contentOf (p : Page) : Line :=
  let c := contentLoop p.contentMatches []
  if c.isEmpty || c.length < 200 then
    match p.fallbackParagraphs with
    | some ps => joinParagraphs ps
    | none => c
  else c

/-- `ArticleScraper._scrape_article_page` on a successfully fetched page
(fetch failures and unexpected exceptions both yield `None` via the
`except` arm and are outside this model): the final validity gate and the
length clamps of src/scraper.py lines 365-373. -/
def scrapeArticlePage (p : Page) (url : Line) : Option Article :=
  let title := titleOf p
  let author := authorOf p
  let content := contentOf p
  if title.isEmpty || content.isEmpty || content.length < 100 then none
  else some { title := title.take 500, author := author.take 100,
              content := content.take 10000, url := url }

/-! ### `ArticleScraper.scrape_articles` (src/scraper.py lines 379-419)

The listing-page fetch and robots warning precede the modelled fragment;
the per-candidate extraction is the environment, modelled as a function
from URL to optional Article. The loop also records which candidates were
attempted (passed to `_scrape_article_page`). -/

inductive ScrapeErr where
  | noLinks
  | noArticles
deriving DecidableEq

/-- The scraping loop over `article_links[:count * 2]`: stop as soon as
`count` articles are accumulated; every link inspected by the loop body is
recorded as attempted. -/
def scrapeLoop (count : Nat) (extract : Line → Option Article) :
    List Line → List Article → List Line → List Article × List Line
  | [], acc, att => (acc, att)
  | l :: rest, acc, att =>
    if count ≤ acc.length then (acc, att)
    else
      match extract l with
      | some a => scrapeLoop count extract rest (acc ++ [a]) (att ++ [l])
      | none => scrapeLoop count extract rest acc (att ++ [l])

/-- `ArticleScraper.scrape_articles` after link discovery: the distinct
"no links" and "no articles" failures of src/scraper.py lines 396-397 and
416-417. -/
def scrapeArticles (count : Nat) (articleLinks : List Line)
    (extract : Line → Option Article) : Except ScrapeErr (List Article) :=
  if articleLinks.isEmpty then .error .noLinks
  else
    let res := (scrapeLoop count extract (articleLinks.take (count * 2)) [] []).1
    if res.isEmpty then .error .noArticles else .ok res

/-! ### Statement-level definitions and concrete instances -/

/-- A well-formed single-line text field of a grammar reply: non-empty,
already stripped, and containing no newline. -/
def goodField (x : Line) : Prop :=
  x ≠ [] ∧ pyStrip x = x ∧ '\n' ∉ x

/-- The lines of the canonical well-formed grammar reply for three
articles (§6 of the spec): headline, combined summary and three numbered
`TITLE:`/`AUTHOR:`/`SUMMARY:` records, blank-line separated. The text
fields are arbitrary, so they may in particular contain URL text. -/
def wfLines3 (h c t1 a1 s1 t2 a2 s2 t3 a3 s3 : Line) : List Line :=
  [("HEADLINE: ").data ++ h, [],
   ("COMBINED_SUMMARY: ").data ++ c, [],
   ("ARTICLE_SUMMARIES:").data,
   ("1. TITLE: ").data ++ t1, ("AUTHOR: ").data ++ a1, ("SUMMARY: ").data ++ s1, [],
   ("2. TITLE: ").data ++ t2, ("AUTHOR: ").data ++ a2, ("SUMMARY: ").data ++ s2, [],
   ("3. TITLE: ").data ++ t3, ("AUTHOR: ").data ++ a3, ("SUMMARY: ").data ++ s3]

/-- The canonical well-formed grammar reply itself. -/
def wfReply3 (h c t1 a1 s1 t2 a2 s2 t3 a3 s3 : Line) : Line :=
  joinWith '\n' (wfLines3 h c t1 a1 s1 t2 a2 s2 t3 a3 s3)

/-- A summary-continuation line: non-blank after stripping, carrying none
of the grammar prefixes, and not a numbered `TITLE:` record marker. -/
def contLineB (l : Line) : Bool :=
  let s := pyStrip l
  !s.isEmpty
    && !startsWithL s tokHeadline && !startsWithL s tokCombined
    && !startsWithL s tokArticleSummaries && !startsWithL s tokSocialPosts
    && !startsWithL s tokTitle && !startsWithL s tokAuthor && !startsWithL s tokSummary
    && !(match s with
         | c :: _ => c.isDigit && containsSub s tokNumTitle
         | [] => false)

/-- The summary text accumulated from continuation lines. -/
def contJoin (s : Line) (ls : List Line) : Line :=
  ls.foldl (fun acc l => acc ++ ' ' :: pyStrip l) s

/-- Concrete articles for witnesses. -/
def wArt1 : Article := ⟨("T one").data, ("A one").data, ("body one").data, ("http://site.com/a1").data⟩

def wArt2 : Article := ⟨("T two").data, ("A two").data, ("body two").data, ("http://site.com/a2").data⟩

def wArt3 : Article := ⟨("T three").data, ("A three").data, ("body three").data, ("http://site.com/a3").data⟩

/-- An eighty-word summary text. -/
def word80 : Line := joinWith ' ' (List.replicate 80 (['w']))

/-- A reply whose only record carries the eighty-word summary. -/
def longSummaryReply : Line :=
  joinWith '\n'
    [("HEADLINE: X").data,
     ("ARTICLE_SUMMARIES:").data,
     ("1. TITLE: T").data,
     ("AUTHOR: A").data,
     ("SUMMARY: ").data ++ word80]

/-- A digest whose only record carries the eighty-word summary. -/
def longSummaryDigest : PyDigest :=
  { headline := ("X").data, combined := [],
    articleSummaries := [⟨some (("T").data), some (("A").data), some word80, none⟩],
    socialPosts := [] }

/-- Twelve candidate links for the orchestrator counterexample. -/
def cex7Links : List Line := (List.range 12).map fun i => 'u' :: (Nat.repr i).data

/-- Extraction succeeding exactly on the last two of the twelve
candidates. -/
def cex7Extract : Line → Option Article := fun l =>
  if l = ('u' :: (Nat.repr 10).data) || l = ('u' :: (Nat.repr 11).data) then
    some ⟨("t").data, ("a").data, ("c").data, l⟩
  else none

/-- Listing page whose single card links to a foreign domain that merely
contains the base domain as a substring. -/
def cex5Doc : SoupDoc := ⟨[[some (("http://evila.com/x/y").data)]], [], none, []⟩

def cex5Base : Line := ("http://a.com").data

/-- robots.txt bodies for the robots-check claim. -/
def robotsAdjacent : Line := ("User-agent: *\nDisallow: /").data

def robotsFar : Line := ("User-agent: *\na\nb\nc\nd\nDisallow: /").data

def robotsOtherAgent : Line := ("User-agent: googlebot\nDisallow: /private").data

/-- A 300-character title text. -/
def longTitle : Line := List.replicate 300 'T'

/-- A page whose only title match is the 300-character text and whose
content passes the cascade. -/
def cex9Page : Page :=
  ⟨[some longTitle], [], [some ⟨[], List.replicate 250 'c'⟩], none⟩

/-- A page with an empty title cascade and valid content. -/
def wit6Page : Page :=
  ⟨[], [], [some ⟨[], List.replicate 250 'c'⟩], none⟩

/-- Four candidate links, of which exactly two are extractable. -/
def wit7Links : List Line :=
  [("http://s.com/a").data, ("http://s.com/b").data,
   ("http://s.com/c").data, ("http://s.com/d").data]

def wit7Extract : Line → Option Article := fun l =>
  if l = ("http://s.com/b").data || l = ("http://s.com/c").data then
    some ⟨("t").data, ("a").data, ("c").data, l⟩
  else none

/-- A title-selector match that does not stop the cascade: no match, or a
match that is empty or 300 characters or longer. -/
def badMatch (x : Option Line) : Bool :=
  match x with
  | none => true
  | some u => !(!u.isEmpty && u.length < 300)

/-- The text of the last matching selector, else the accumulator — the
value the title cascade keeps when no match passes the validity check. -/
def lastMatched (ms : List (Option Line)) (acc : Line) : Line :=
  ms.foldl (fun a m => match m with | none => a | some t => t) acc

/-- The invariant of every link list built by Link Discovery: no
duplicates, and every entry passes the article filter and carries the
base domain as a substring of its netloc. -/
def linkInv (baseDomain : Line) (L : List Line) : Prop :=
  L.Nodup ∧ ∀ u ∈ L, isArticleUrl u = true ∧ containsSub (netlocOf u) baseDomain = true

/-! ## Helper lemmas on the string model -/

theorem containsSub_iff {s pat : Line} : containsSub s pat = true ↔ pat <:+: s := by
  induction s with
  | nil =>
    simp only [containsSub, List.isEmpty_iff, List.infix_nil]
  | cons c tail ih =>
    simp only [containsSub, Bool.or_eq_true, ih, List.infix_cons_iff,
      List.isPrefixOf_iff_prefix]

theorem isPrefixOf_append_left {p a : Line} (b : Line) (h : p.isPrefixOf a = true) :
    p.isPrefixOf (a ++ b) = true := by
  rw [List.isPrefixOf_iff_prefix] at h ⊢
  exact h.trans (List.prefix_append a b)

theorem isPrefixOf_append_false {p a : Line} (b : Line) (k : Nat) (hk : k ≤ a.length)
    (hne : ¬(p.take k <+: a.take k)) : p.isPrefixOf (a ++ b) = false := by
  cases hb : p.isPrefixOf (a ++ b) with
  | false => rfl
  | true =>
    rw [List.isPrefixOf_iff_prefix] at hb
    have h2 := hb.take k
    rw [List.take_append_eq_append_take, Nat.sub_eq_zero_of_le hk, List.take_zero,
      List.append_nil] at h2
    exact absurd h2 hne

theorem containsSub_append_left {a pat : Line} (b : Line) (h : containsSub a pat = true) :
    containsSub (a ++ b) pat = true := by
  rw [containsSub_iff] at h ⊢
  obtain ⟨u, v, huv⟩ := h
  exact ⟨u, v ++ b, by rw [← huv]; simp⟩

theorem pyStrip_infix (s : Line) : pyStrip s <:+: s := by
  have h1 : s.dropWhile isPySpace <:+ s := List.dropWhile_suffix _
  have h2 : (s.dropWhile isPySpace).reverse.dropWhile isPySpace <:+
      (s.dropWhile isPySpace).reverse := List.dropWhile_suffix _
  have h3 : ((s.dropWhile isPySpace).reverse.dropWhile isPySpace).reverse <+:
      s.dropWhile isPySpace := by
    rw [← List.reverse_suffix]
    simpa using h2
  obtain ⟨t, ht⟩ := h3
  obtain ⟨u, hu⟩ := h1
  refine ⟨u, t, ?_⟩
  have hps : pyStrip s ++ t = s.dropWhile isPySpace := ht
  rw [List.append_assoc, hps, hu]

theorem pyStrip_length_le_dropWhile (l : Line) :
    (pyStrip l).length ≤ (l.dropWhile isPySpace).length := by
  unfold pyStrip
  rw [List.length_reverse]
  obtain ⟨u, hu⟩ := List.dropWhile_suffix (l := (l.dropWhile isPySpace).reverse) isPySpace
  have := congrArg List.length hu
  simp only [List.length_append, List.length_reverse] at this
  omega

theorem pyStrip_eq_self_of_ends {l : Line}
    (hh : ∀ c, l.head? = some c → isPySpace c = false)
    (hl : ∀ c, l.getLast? = some c → isPySpace c = false) : pyStrip l = l := by
  have hd : l.dropWhile isPySpace = l := by
    cases l with
    | nil => rfl
    | cons c t =>
      rw [List.dropWhile_cons, hh c rfl]
      simp
  have hr : l.reverse.dropWhile isPySpace = l.reverse := by
    cases hrv : l.reverse with
    | nil => rfl
    | cons d r' =>
      have hlast : l.getLast? = some d := by
        rw [List.getLast?_eq_head?_reverse, hrv]
        rfl
      rw [List.dropWhile_cons, hl d hlast]
      simp
  unfold pyStrip
  rw [hd, hr, List.reverse_reverse]

theorem stripped_dropWhile_eq {x : Line} (h : pyStrip x = x) :
    x.dropWhile isPySpace = x := by
  apply (List.dropWhile_suffix isPySpace).eq_of_length
  have h1 := pyStrip_length_le_dropWhile x
  rw [h] at h1
  have h2 : (x.dropWhile isPySpace).length ≤ x.length :=
    (List.dropWhile_suffix isPySpace).length_le
  omega

theorem stripped_rev_dropWhile_eq {x : Line} (h : pyStrip x = x) :
    x.reverse.dropWhile isPySpace = x.reverse := by
  have hD := stripped_dropWhile_eq h
  have hps : (x.reverse.dropWhile isPySpace).reverse = x := by
    have hu : pyStrip x = (x.reverse.dropWhile isPySpace).reverse := by
      unfold pyStrip
      rw [hD]
    rw [← hu, h]
  apply (List.dropWhile_suffix isPySpace).eq_of_length
  have := congrArg List.length hps
  simp only [List.length_reverse] at this
  simp [this]

theorem goodField_head {x : Line} (h : goodField x) :
    ∀ c, x.head? = some c → isPySpace c = false := by
  intro c hc
  have hD := stripped_dropWhile_eq h.2.1
  rw [List.dropWhile_eq_self_iff] at hD
  cases x with
  | nil => simp at hc
  | cons a t =>
    have hac : a = c := by simpa using hc
    subst hac
    have := hD (by simp)
    simpa using this

theorem goodField_last {x : Line} (h : goodField x) :
    ∀ c, x.getLast? = some c → isPySpace c = false := by
  intro c hc
  have hR := stripped_rev_dropWhile_eq h.2.1
  rw [List.dropWhile_eq_self_iff] at hR
  have hrev : x.reverse.head? = some c := by
    rw [List.head?_reverse]
    exact hc
  cases hx : x.reverse with
  | nil =>
    rw [hx] at hrev
    simp at hrev
  | cons d r =>
    have hdc : d = c := by
      rw [hx] at hrev
      simpa using hrev
    subst hdc
    rw [hx] at hR
    have := hR (by simp)
    simpa using this

theorem pyStrip_concrete_append {pre x : Line} (hpre : pre ≠ [])
    (hph : ∀ c, pre.head? = some c → isPySpace c = false) (hx : goodField x) :
    pyStrip (pre ++ x) = pre ++ x := by
  apply pyStrip_eq_self_of_ends
  · intro c hc
    rw [List.head?_append_of_ne_nil pre hpre] at hc
    exact hph c hc
  · intro c hc
    apply goodField_last hx
    rwa [List.getLast?_append_of_ne_nil pre hx.1] at hc

/-! ## Totality of the parser (no line can make it raise) -/

theorem pySplit1_pair {s pat : Line} (hpat : pat ≠ []) (h : containsSub s pat = true) :
    ∃ x y, pySplit1 s pat = [x, y] := by
  induction s with
  | nil =>
    rw [containsSub] at h
    rw [List.isEmpty_iff] at h
    exact absurd h hpat
  | cons c tail ih =>
    rw [containsSub, Bool.or_eq_true] at h
    unfold pySplit1
    by_cases hp : pat.isPrefixOf (c :: tail) = true
    · rw [if_pos hp]
      exact ⟨[], _, rfl⟩
    · rw [if_neg hp]
      rcases h with h | h
      · exact absurd h hp
      · obtain ⟨x, y, he⟩ := ih h
        rw [he]
        exact ⟨c :: x, y, rfl⟩

theorem splitTailE_ok (line tok : Line) (htok : tok ≠ []) :
    ∃ v, splitTailE line tok = .ok v := by
  unfold splitTailE
  by_cases h : containsSub line tok = true
  · rw [if_pos h]
    obtain ⟨x, y, he⟩ := pySplit1_pair htok h
    rw [he]
    exact ⟨pyStrip y, rfl⟩
  · rw [if_neg h]
    exact ⟨[], rfl⟩

theorem articlesStep_ok (st : PState) (line : Line) (h : line ≠ []) :
    ∃ st', articlesStep st line = .ok st' := by
  cases line with
  | nil => exact absurd rfl h
  | cons c rest =>
    simp only [articlesStep]
    by_cases h1 : (c.isDigit && containsSub (c :: rest) tokNumTitle) = true
    · rw [if_pos h1]
      obtain ⟨v, hv⟩ := splitTailE_ok (c :: rest) tokTitle (by decide)
      rw [hv]
      exact ⟨_, rfl⟩
    · rw [if_neg h1]
      repeat' first
        | exact ⟨_, rfl⟩
        | split

theorem socialStep_ok (st : PState) (line : Line) (h : line ≠ []) :
    ∃ st', socialStep st line = .ok st' := by
  cases line with
  | nil => exact absurd rfl h
  | cons c rest =>
    simp only [socialStep]
    by_cases h1 : (c.isDigit && containsSub (c :: rest) tokNumPostHeadline) = true
    · rw [if_pos h1]
      obtain ⟨v, hv⟩ := splitTailE_ok (c :: rest) tokPostHeadline (by decide)
      rw [hv]
      exact ⟨_, rfl⟩
    · rw [if_neg h1]
      repeat' first
        | exact ⟨_, rfl⟩
        | split

theorem processLineE_ok (st : PState) (raw : Line) :
    ∃ st', processLineE st raw = .ok st' := by
  unfold processLineE
  by_cases hE : (pyStrip raw).isEmpty = true
  · rw [if_pos hE]
    exact ⟨st, rfl⟩
  · rw [if_neg hE]
    have hne : pyStrip raw ≠ [] := by
      rwa [Ne, ← List.isEmpty_iff]
    repeat' first
      | exact articlesStep_ok _ _ hne
      | exact socialStep_ok _ _ hne
      | exact ⟨_, rfl⟩
      | split

theorem runLines_ok (st : PState) (ls : List Line) :
    ∃ st', runLines st ls = .ok st' := by
  induction ls generalizing st with
  | nil => exact ⟨st, rfl⟩
  | cons l ls ih =>
    obtain ⟨st₁, h₁⟩ := processLineE_ok st l
    unfold runLines
    rw [h₁]
    exact ih st₁

/-- C2: the Digest Parser is total — for every reply string (truncated,
malformed or adversarial) and every article list it returns a digest
value; the modelled runtime-error sites (`line[0]`, `split(...)[1]`) are
never reached, so it never raises. -/
theorem parseResponse_total (response : Line) (articles : List Article) :
    ∃ d, parseResponse response articles = .ok d := by
  unfold parseResponse
  obtain ⟨st, hst⟩ := runLines_ok initState (splitOnChar '\n' (pyStrip response))
  rw [hst]
  exact ⟨_, rfl⟩

/-! ## C10: the parse result itself is not word-limited -/

set_option maxRecDepth 4000 in
/-- C10: there is a model reply and article list for which the parse
result contains an article summary over the 50-word maximum — the word
limit is enforced only by `format_digest`, so direct consumers of the
parse result receive untruncated summaries. -/
theorem parse_result_unbounded_summary :
    ∃ d, parseResponse longSummaryReply [wArt1] = .ok d ∧
      (d.articleSummaries.any fun r =>
        decide (MAX_SUMMARY_WORDS < (pyWords (r.summary.getD [])).length)) = true := by
  refine ⟨_, rfl, ?_⟩
  decide

/-! ## C4: word-limit enforcement in the formatter -/

theorem pyWordsAux_no_space_append {w : Line} (hw : ∀ c ∈ w, isPySpace c = false) :
    ∀ (t acc : Line), pyWordsAux (w ++ t) acc = pyWordsAux t (w.reverse ++ acc) := by
  induction w with
  | nil => simp
  | cons c ws ih =>
    intro t acc
    have hc : isPySpace c = false := hw c (List.mem_cons_self c ws)
    have hws : ∀ x ∈ ws, isPySpace x = false := fun x hx => hw x (List.mem_cons_of_mem c hx)
    have step : pyWordsAux ((c :: ws) ++ t) acc = pyWordsAux (ws ++ t) (c :: acc) := by
      simp [pyWordsAux, hc]
    rw [step, ih hws t (c :: acc)]
    simp

theorem pyWordsAux_mem {s : Line} :
    ∀ {acc : Line}, (∀ c ∈ acc, isPySpace c = false) →
      ∀ w ∈ pyWordsAux s acc, w ≠ [] ∧ ∀ c ∈ w, isPySpace c = false := by
  induction s with
  | nil =>
    intro acc hacc w hw
    unfold pyWordsAux at hw
    by_cases ha : acc.isEmpty = true
    · rw [if_pos ha] at hw
      simp at hw
    · rw [if_neg ha] at hw
      have hwa : w = acc.reverse := by simpa using hw
      subst hwa
      refine ⟨by simpa [List.isEmpty_iff] using ha, ?_⟩
      intro c hc
      exact hacc c (by simpa using hc)
  | cons c rest ih =>
    intro acc hacc w hw
    unfold pyWordsAux at hw
    by_cases hsp : isPySpace c = true
    · rw [if_pos hsp] at hw
      by_cases ha : acc.isEmpty = true
      · rw [if_pos ha] at hw
        exact ih (by simp) w hw
      · rw [if_neg ha] at hw
        rcases List.mem_cons.mp hw with hwa | hwr
        · subst hwa
          refine ⟨by simpa [List.isEmpty_iff] using ha, ?_⟩
          intro x hx
          exact hacc x (by simpa using hx)
        · exact ih (by simp) w hwr
    · rw [if_neg hsp] at hw
      refine ih ?_ w hw
      intro x hx
      rcases List.mem_cons.mp hx with h | h
      · subst h
        simpa using hsp
      · exact hacc x h

theorem pyWords_mem {s : Line} (w : Line) (hw : w ∈ pyWords s) :
    w ≠ [] ∧ ∀ c ∈ w, isPySpace c = false :=
  pyWordsAux_mem (by simp) w hw

theorem pyWordsAux_all_no_space (s acc : Line) (hs : ∀ c ∈ s, isPySpace c = false) :
    pyWordsAux s acc = pyWordsAux [] (s.reverse ++ acc) := by
  have h := pyWordsAux_no_space_append hs [] acc
  simpa using h

theorem pyWords_join_length {e : Line} (he : ∀ c ∈ e, isPySpace c = false) :
    ∀ (ws : List Line), ws ≠ [] →
      (∀ w ∈ ws, w ≠ [] ∧ ∀ c ∈ w, isPySpace c = false) →
      (pyWords (joinWith ' ' ws ++ e)).length = ws.length := by
  intro ws
  induction ws with
  | nil => exact fun h _ => absurd rfl h
  | cons w ws ih =>
    intro _ hword
    obtain ⟨hwne, hwns⟩ := hword w (List.mem_cons_self w ws)
    cases ws with
    | nil =>
      have hall : ∀ c ∈ w ++ e, isPySpace c = false := by
        intro c hc
        rcases List.mem_append.mp hc with h | h
        · exact hwns c h
        · exact he c h
      have h1 : pyWords (joinWith ' ' [w] ++ e) = pyWordsAux (w ++ e) [] := by
        simp [pyWords, joinWith]
      rw [h1, pyWordsAux_all_no_space _ _ hall]
      have hA : ¬(((w ++ e).reverse ++ ([] : Line)).isEmpty = true) := by
        simp [List.isEmpty_iff, hwne]
      simp only [pyWordsAux]
      rw [if_neg hA]
      rfl
    | cons w₂ ws₂ =>
      have hjoin : joinWith ' ' (w :: w₂ :: ws₂) ++ e
          = w ++ (' ' :: (joinWith ' ' (w₂ :: ws₂) ++ e)) := by
        simp [joinWith]
      rw [pyWords, hjoin, pyWordsAux_no_space_append hwns _ _]
      have hacc : ¬((w.reverse ++ ([] : Line)).isEmpty = true) := by
        simp [List.isEmpty_iff, hwne]
      simp only [pyWordsAux]
      rw [if_pos (by decide : isPySpace ' ' = true), if_neg hacc]
      have ihv := ih (by simp) (fun x hx => hword x (List.mem_cons_of_mem w hx))
      rw [pyWords] at ihv
      simp [ihv]

theorem enforceWordLimit_le (s : Line) :
    (pyWords (enforceWordLimit s)).length ≤ MAX_SUMMARY_WORDS := by
  unfold enforceWordLimit
  by_cases h : MAX_SUMMARY_WORDS < (pyWords s).length
  · rw [if_pos h]
    have hword : ∀ w ∈ (pyWords s).take MAX_SUMMARY_WORDS,
        w ≠ [] ∧ ∀ c ∈ w, isPySpace c = false :=
      fun w hw => pyWords_mem w (List.take_subset _ _ hw)
    have hne : (pyWords s).take MAX_SUMMARY_WORDS ≠ [] := by
      have : ((pyWords s).take MAX_SUMMARY_WORDS).length = MAX_SUMMARY_WORDS := by
        rw [List.length_take]
        omega
      intro hnil
      rw [hnil] at this
      simp [MAX_SUMMARY_WORDS] at this
    rw [pyWords_join_length (by decide) _ hne hword, List.length_take]
    omega
  · rw [if_neg h]
    omega

theorem mem_articleBlocks {r : SumRec} :
    ∀ (recs : List SumRec) (i n : Nat), recs[i]? = some r →
      ('*' :: r.author.getD defaultAuthor
        ++ ('*' :: ' ' :: enforceWordLimit (r.summary.getD [])))
        ∈ articleBlocks n recs := by
  intro recs
  induction recs with
  | nil =>
    intro i n h
    simp at h
  | cons rec rest ih =>
    intro i n h
    cases i with
    | zero =>
      have hr : rec = r := by simpa using h
      subst hr
      simp only [articleBlocks, List.mem_cons]
      tauto
    | succ i' =>
      have h' : rest[i']? = some r := by simpa using h
      simp only [articleBlocks, List.mem_cons]
      have := ih i' (n + 1) h'
      tauto

/-- C4: every per-article summary rendered by `format_digest` is at most
`MAX_SUMMARY_WORDS` (50) words, and an over-long summary renders as
exactly its first 50 words space-joined followed by the `"..."` marker. -/
theorem formatDigest_word_limit (d : PyDigest) (i : Nat) (r : SumRec)
    (h : d.articleSummaries[i]? = some r) :
    ('*' :: r.author.getD defaultAuthor
      ++ ('*' :: ' ' :: enforceWordLimit (r.summary.getD []))) ∈ formatDigestLines d
    ∧ (pyWords (enforceWordLimit (r.summary.getD []))).length ≤ MAX_SUMMARY_WORDS
    ∧ (MAX_SUMMARY_WORDS < (pyWords (r.summary.getD [])).length →
        enforceWordLimit (r.summary.getD [])
          = joinWith ' ' ((pyWords (r.summary.getD [])).take MAX_SUMMARY_WORDS)
            ++ tokEllipsis) := by
  refine ⟨?_, enforceWordLimit_le _, ?_⟩
  · unfold formatDigestLines
    have := mem_articleBlocks d.articleSummaries i 1 h
    simp only [List.mem_append]
    tauto
  · intro hlong
    unfold enforceWordLimit
    rw [if_pos hlong]

/-- Witness for C4 at a concrete digest whose only record has an
eighty-word summary: it renders as exactly 50 words plus the ellipsis. -/
theorem formatDigest_word_limit_witness :
    longSummaryDigest.articleSummaries[0]?
        = some ⟨some (("T").data), some (("A").data), some word80, none⟩
    ∧ (('*' :: (("A").data)
        ++ ('*' :: ' ' :: enforceWordLimit word80)) ∈ formatDigestLines longSummaryDigest
      ∧ (pyWords (enforceWordLimit word80)).length ≤ MAX_SUMMARY_WORDS
      ∧ (MAX_SUMMARY_WORDS < (pyWords word80).length →
          enforceWordLimit word80
            = joinWith ' ' ((pyWords word80).take MAX_SUMMARY_WORDS) ++ tokEllipsis)) :=
  ⟨by decide,
   formatDigest_word_limit longSummaryDigest 0
     ⟨some (("T").data), some (("A").data), some word80, none⟩ (by decide)⟩

/-! ## C3: continuation lines extend the open summary -/

theorem contLine_step (st : PState) (l : Line) (hsec : st.sec = PSection.articles)
    {s : Line} (hsum : st.curArt.summary = some s) (hl : contLineB l = true) :
    processLineE st l
      = .ok { st with curArt := { st.curArt with summary := some (s ++ ' ' :: pyStrip l) } } := by
  cases hl' : pyStrip l with
  | nil =>
    exfalso
    rw [contLineB] at hl
    rw [hl'] at hl
    simp at hl
  | cons c rest =>
    rw [contLineB] at hl
    rw [hl'] at hl
    simp only [List.isEmpty_cons, Bool.not_false, Bool.true_and, Bool.and_eq_true,
      Bool.not_eq_true'] at hl
    obtain ⟨⟨⟨⟨⟨⟨⟨hH, hC⟩, hAS⟩, hSP⟩, hT⟩, hAu⟩, hSu⟩, hMark⟩ := hl
    simp only [processLineE, hl', List.isEmpty_cons, Bool.false_eq_true, if_false,
      hH, hC, hAS, hSP, hsec]
    simp only [articlesStep, hMark, hT, hAu, hSu, Bool.false_eq_true, if_false, hsum,
      Bool.not_false, Bool.and_self]
    simp [hSP, hsec]

/-- C3: while in the `ARTICLES` section with an open summary, every run of
non-blank lines carrying no recognised grammar marker is appended,
space-joined and in order, to the open record's summary; no new record is
started and no text is dropped (all other state is unchanged). -/
theorem parser_continuation_lines (st : PState) {s : Line} (ls : List Line)
    (hsec : st.sec = PSection.articles) (hsum : st.curArt.summary = some s)
    (hls : ∀ l ∈ ls, contLineB l = true) :
    runLines st ls
      = .ok { st with curArt := { st.curArt with summary := some (contJoin s ls) } } := by
  induction ls generalizing st s with
  | nil =>
    have hart : { st.curArt with summary := some (contJoin s []) } = st.curArt := by
      cases hca : st.curArt with
      | mk t a su =>
        rw [hca] at hsum
        simp only at hsum
        simp [contJoin, hsum]
    rw [runLines, hart]
  | cons l ls ih =>
    have hstep := contLine_step st l hsec hsum (hls l (List.mem_cons_self l ls))
    rw [runLines, hstep]
    have := ih ({ st with curArt := { st.curArt with summary := some (s ++ ' ' :: pyStrip l) } })
      (s := s ++ ' ' :: pyStrip l) hsec rfl (fun x hx => hls x (List.mem_cons_of_mem l hx))
    exact this

/-- Witness for C3: two wrapped continuation lines are folded into the
open summary. -/
theorem parser_continuation_lines_witness :
    (({ rHeadline := [], rCombined := [], rArticles := [], rPosts := [],
        sec := PSection.articles,
        curArt := { title := some (("T").data), author := none,
                    summary := some (("examines things").data) },
        curPost := {} } : PState).sec = PSection.articles
      ∧ (∀ l ∈ [("that wrap onward").data, ("and finish here").data], contLineB l = true))
    ∧ runLines
        { rHeadline := [], rCombined := [], rArticles := [], rPosts := [],
          sec := PSection.articles,
          curArt := { title := some (("T").data), author := none,
                      summary := some (("examines things").data) },
          curPost := {} }
        [("that wrap onward").data, ("and finish here").data]
      = .ok { rHeadline := [], rCombined := [], rArticles := [], rPosts := [],
              sec := PSection.articles,
              curArt := { title := some (("T").data), author := none,
                          summary := some (("examines things that wrap onward and finish here").data) },
              curPost := {} } := by
  refine ⟨⟨rfl, by decide⟩, ?_⟩
  have h := parser_continuation_lines
    { rHeadline := [], rCombined := [], rArticles := [], rPosts := [],
      sec := PSection.articles,
      curArt := { title := some (("T").data), author := none,
                  summary := some (("examines things").data) },
      curPost := {} }
    [("that wrap onward").data, ("and finish here").data]
    rfl rfl (by decide)
  rw [h]
  rfl

/-! ## C1: well-formed replies give one record per article, URLs by position -/

theorem splitOnChar_of_not_mem {sep : Char} {l : Line} (h : sep ∉ l) :
    splitOnChar sep l = [l] := by
  induction l with
  | nil => rfl
  | cons c t ih =>
    have hc : ¬(c = sep) := fun hcs => h (hcs ▸ List.mem_cons_self c t)
    have ht : sep ∉ t := fun hm => h (List.mem_cons_of_mem c hm)
    rw [splitOnChar, if_neg hc, ih ht]

theorem splitOnChar_append_cons {sep : Char} {l r : Line} (h : sep ∉ l) :
    splitOnChar sep (l ++ sep :: r) = l :: splitOnChar sep r := by
  induction l with
  | nil =>
    show splitOnChar sep (sep :: r) = [] :: splitOnChar sep r
    rw [splitOnChar, if_pos rfl]
  | cons c t ih =>
    have hc : ¬(c = sep) := fun hcs => h (hcs ▸ List.mem_cons_self c t)
    have ht : sep ∉ t := fun hm => h (List.mem_cons_of_mem c hm)
    show splitOnChar sep (c :: (t ++ sep :: r)) = (c :: t) :: splitOnChar sep r
    rw [splitOnChar, if_neg hc, ih ht]

theorem splitOnChar_joinWith (sep : Char) :
    ∀ ls : List Line, ls ≠ [] → (∀ l ∈ ls, sep ∉ l) →
      splitOnChar sep (joinWith sep ls) = ls := by
  intro ls
  induction ls with
  | nil => exact fun h _ => absurd rfl h
  | cons l ls ih =>
    intro _ hmem
    cases ls with
    | nil => exact splitOnChar_of_not_mem (hmem l (List.mem_cons_self l []))
    | cons l₂ ls₂ =>
      show splitOnChar sep (l ++ sep :: joinWith sep (l₂ :: ls₂)) = l :: l₂ :: ls₂
      rw [splitOnChar_append_cons (hmem l (List.mem_cons_self l _)),
        ih (by simp) (fun x hx => hmem x (List.mem_cons_of_mem l hx))]

theorem joinWith_cons_of_ne_nil {sep : Char} {l : Line} {ls : List Line} (h : ls ≠ []) :
    joinWith sep (l :: ls) = l ++ sep :: joinWith sep ls := by
  cases ls with
  | nil => exact absurd rfl h
  | cons l₂ ls₂ => rfl

theorem getLast?_joinWith_last (sep : Char) :
    ∀ (ls : List Line) (z : Line), z ≠ [] →
      (joinWith sep (ls ++ [z])).getLast? = z.getLast? := by
  intro ls
  induction ls with
  | nil =>
    intro z _
    rfl
  | cons l ls ih =>
    intro z hz
    rw [List.cons_append, joinWith_cons_of_ne_nil (by simp),
      List.getLast?_append_of_ne_nil l (by simp)]
    by_cases hX : joinWith sep (ls ++ [z]) = []
    · exfalso
      have hih := ih z hz
      rw [hX] at hih
      cases z with
      | nil => exact absurd rfl hz
      | cons a b =>
        rw [show (List.getLast? ([] : Line)) = none from rfl] at hih
        have h2 := List.getLast?_eq_none_iff.mp hih.symm
        cases h2
    · rw [show (sep :: joinWith sep (ls ++ [z])) = [sep] ++ joinWith sep (ls ++ [z]) from rfl,
        List.getLast?_append_of_ne_nil [sep] hX]
      exact ih z hz

theorem append_ne_nil_left {a : Line} (b : Line) (ha : a ≠ []) : a ++ b ≠ [] := by
  cases a with
  | nil => exact absurd rfl ha
  | cons c t => simp

theorem newline_not_mem_append {pre x : Line} (hpre : '\n' ∉ pre) (hx : '\n' ∉ x) :
    '\n' ∉ pre ++ x := by
  intro hmem
  rcases List.mem_append.mp hmem with h | h
  · exact hpre h
  · exact hx h

theorem head_no_space {pre : Line} {p : Char} (hpre : pre.head? = some p)
    (hp : isPySpace p = false) : ∀ c, pre.head? = some c → isPySpace c = false := by
  intro c hc
  rw [hpre] at hc
  rw [← Option.some.inj hc]
  exact hp

/-- Stripping a line made of a non-blank literal token followed by a good
field is the identity. -/
theorem pyStrip_tok_append (p : Char) (pre : Line) {x : Line} (hpre : pre.head? = some p)
    (hp : isPySpace p = false) (hx : goodField x) : pyStrip (pre ++ x) = pre ++ x := by
  apply pyStrip_concrete_append ?_ (head_no_space hpre hp) hx
  intro hc
  rw [hc] at hpre
  simp at hpre

/-! Per-line step lemmas for the well-formed reply. -/

theorem stepBlank (st : PState) : processLineE st [] = .ok st := rfl

theorem stepAS (st : PState) :
    processLineE st (("ARTICLE_SUMMARIES:").data) = .ok { st with sec := .articles } := rfl

theorem stepHeadline {h : Line} (hh : goodField h) (st : PState) :
    processLineE st (("HEADLINE: ").data ++ h)
      = .ok { st with
          rHeadline := pyStrip (replaceAll ((("HEADLINE: ").data ++ h)) tokHeadline []),
          sec := .headline } := by
  have hstrip := pyStrip_tok_append 'H' (("HEADLINE: ").data) rfl (by decide) hh
  have hne : ¬((("HEADLINE: ").data ++ h).isEmpty = true) := by
    rw [List.isEmpty_iff]
    exact append_ne_nil_left h (by decide)
  have hH : startsWithL ((("HEADLINE: ").data ++ h)) tokHeadline = true :=
    isPrefixOf_append_left h (by decide)
  simp only [processLineE, hstrip]
  rw [if_neg hne, if_pos hH]

theorem stepCombined {c : Line} (hc : goodField c) (st : PState) :
    processLineE st (("COMBINED_SUMMARY: ").data ++ c)
      = .ok { st with
          rCombined := pyStrip (replaceAll ((("COMBINED_SUMMARY: ").data ++ c)) tokCombined []),
          sec := .combined } := by
  have hstrip := pyStrip_tok_append 'C' (("COMBINED_SUMMARY: ").data) rfl (by decide) hc
  have hne : ¬((("COMBINED_SUMMARY: ").data ++ c).isEmpty = true) := by
    rw [List.isEmpty_iff]
    exact append_ne_nil_left c (by decide)
  have hH : startsWithL ((("COMBINED_SUMMARY: ").data ++ c)) tokHeadline = false :=
    isPrefixOf_append_false c 1 (by decide) (by decide)
  have hC : startsWithL ((("COMBINED_SUMMARY: ").data ++ c)) tokCombined = true :=
    isPrefixOf_append_left c (by decide)
  simp only [processLineE, hstrip]
  rw [if_neg hne, if_neg (by rw [hH]; exact Bool.false_ne_true), if_pos hC]

theorem bfalse {b : Bool} (h : b = false) : ¬(b = true) := by
  rw [h]
  exact Bool.false_ne_true

theorem stepAuthor {a : Line} (ha : goodField a) (rh rc : Line) (ra : List PArt)
    (rp : List PPost) (ca : PArt) (cp : PPost) :
    ∃ av, processLineE ⟨rh, rc, ra, rp, .articles, ca, cp⟩ ((("AUTHOR: ").data) ++ a)
      = .ok ⟨rh, rc, ra, rp, .articles, { ca with author := some av }, cp⟩ := by
  have hstrip := pyStrip_tok_append 'A' (("AUTHOR: ").data) rfl (by decide) ha
  have hne : ¬(((("AUTHOR: ").data) ++ a).isEmpty = true) := by
    rw [List.isEmpty_iff]
    exact append_ne_nil_left a (by decide)
  have hH : startsWithL ((("AUTHOR: ").data) ++ a) tokHeadline = false :=
    isPrefixOf_append_false a 1 (by decide) (by decide)
  have hC : startsWithL ((("AUTHOR: ").data) ++ a) tokCombined = false :=
    isPrefixOf_append_false a 1 (by decide) (by decide)
  have hAS : startsWithL ((("AUTHOR: ").data) ++ a) tokArticleSummaries = false :=
    isPrefixOf_append_false a 2 (by decide) (by decide)
  have hSP : startsWithL ((("AUTHOR: ").data) ++ a) tokSocialPosts = false :=
    isPrefixOf_append_false a 1 (by decide) (by decide)
  have hd : ('A'.isDigit && containsSub ('A' :: ((("UTHOR: ").data) ++ a)) tokNumTitle)
      = false := by
    rw [show 'A'.isDigit = false from rfl]
    exact Bool.false_and _
  have hT : startsWithL ('A' :: ((("UTHOR: ").data) ++ a)) tokTitle = false := by
    have h0 : startsWithL ((("AUTHOR: ").data) ++ a) tokTitle = false :=
      isPrefixOf_append_false a 1 (by decide) (by decide)
    exact h0
  have hAu : startsWithL ('A' :: ((("UTHOR: ").data) ++ a)) tokAuthor = true := by
    have h0 : startsWithL ((("AUTHOR: ").data) ++ a) tokAuthor = true :=
      isPrefixOf_append_left a (by decide)
    exact h0
  refine ⟨pyStrip (replaceAll ('A' :: ((("UTHOR: ").data) ++ a)) tokAuthor []), ?_⟩
  simp only [processLineE, hstrip]
  rw [if_neg hne, if_neg (bfalse hH), if_neg (bfalse hC), if_neg (bfalse hAS),
    if_neg (bfalse hSP)]
  show articlesStep ⟨rh, rc, ra, rp, .articles, ca, cp⟩ ('A' :: ((("UTHOR: ").data) ++ a)) = _
  simp only [articlesStep]
  rw [if_neg (bfalse hd), if_neg (bfalse hT), if_pos hAu]

theorem stepSummary {s : Line} (hs : goodField s) (rh rc : Line) (ra : List PArt)
    (rp : List PPost) (ca : PArt) (cp : PPost) :
    ∃ sv, processLineE ⟨rh, rc, ra, rp, .articles, ca, cp⟩ ((("SUMMARY: ").data) ++ s)
      = .ok ⟨rh, rc, ra, rp, .articles, { ca with summary := some sv }, cp⟩ := by
  have hstrip := pyStrip_tok_append 'S' (("SUMMARY: ").data) rfl (by decide) hs
  have hne : ¬(((("SUMMARY: ").data) ++ s).isEmpty = true) := by
    rw [List.isEmpty_iff]
    exact append_ne_nil_left s (by decide)
  have hH : startsWithL ((("SUMMARY: ").data) ++ s) tokHeadline = false :=
    isPrefixOf_append_false s 1 (by decide) (by decide)
  have hC : startsWithL ((("SUMMARY: ").data) ++ s) tokCombined = false :=
    isPrefixOf_append_false s 1 (by decide) (by decide)
  have hAS : startsWithL ((("SUMMARY: ").data) ++ s) tokArticleSummaries = false :=
    isPrefixOf_append_false s 1 (by decide) (by decide)
  have hSP : startsWithL ((("SUMMARY: ").data) ++ s) tokSocialPosts = false :=
    isPrefixOf_append_false s 2 (by decide) (by decide)
  have hd : ('S'.isDigit && containsSub ('S' :: ((("UMMARY: ").data) ++ s)) tokNumTitle)
      = false := by
    rw [show 'S'.isDigit = false from rfl]
    exact Bool.false_and _
  have hT : startsWithL ('S' :: ((("UMMARY: ").data) ++ s)) tokTitle = false := by
    have h0 : startsWithL ((("SUMMARY: ").data) ++ s) tokTitle = false :=
      isPrefixOf_append_false s 1 (by decide) (by decide)
    exact h0
  have hAu : startsWithL ('S' :: ((("UMMARY: ").data) ++ s)) tokAuthor = false := by
    have h0 : startsWithL ((("SUMMARY: ").data) ++ s) tokAuthor = false :=
      isPrefixOf_append_false s 1 (by decide) (by decide)
    exact h0
  have hSu : startsWithL ('S' :: ((("UMMARY: ").data) ++ s)) tokSummary = true := by
    have h0 : startsWithL ((("SUMMARY: ").data) ++ s) tokSummary = true :=
      isPrefixOf_append_left s (by decide)
    exact h0
  refine ⟨pyStrip (replaceAll ('S' :: ((("UMMARY: ").data) ++ s)) tokSummary []), ?_⟩
  simp only [processLineE, hstrip]
  rw [if_neg hne, if_neg (bfalse hH), if_neg (bfalse hC), if_neg (bfalse hAS),
    if_neg (bfalse hSP)]
  show articlesStep ⟨rh, rc, ra, rp, .articles, ca, cp⟩ ('S' :: ((("UMMARY: ").data) ++ s)) = _
  simp only [articlesStep]
  rw [if_neg (bfalse hd), if_neg (bfalse hT), if_neg (bfalse hAu), if_pos hSu]

theorem stepTitle1 {t : Line} (ht : goodField t) (rh rc : Line) (ra : List PArt)
    (rp : List PPost) (ca : PArt) (cp : PPost) :
    ∃ tv, processLineE ⟨rh, rc, ra, rp, .articles, ca, cp⟩ ((("1. TITLE: ").data) ++ t)
      = .ok ⟨rh, rc, flushArt ra ca, rp, .articles, { title := some tv }, cp⟩ := by
  have hstrip := pyStrip_tok_append '1' (("1. TITLE: ").data) rfl (by decide) ht
  have hne : ¬(((("1. TITLE: ").data) ++ t).isEmpty = true) := by
    rw [List.isEmpty_iff]
    exact append_ne_nil_left t (by decide)
  have hH : startsWithL ((("1. TITLE: ").data) ++ t) tokHeadline = false :=
    isPrefixOf_append_false t 1 (by decide) (by decide)
  have hC : startsWithL ((("1. TITLE: ").data) ++ t) tokCombined = false :=
    isPrefixOf_append_false t 1 (by decide) (by decide)
  have hAS : startsWithL ((("1. TITLE: ").data) ++ t) tokArticleSummaries = false :=
    isPrefixOf_append_false t 1 (by decide) (by decide)
  have hSP : startsWithL ((("1. TITLE: ").data) ++ t) tokSocialPosts = false :=
    isPrefixOf_append_false t 1 (by decide) (by decide)
  have hcont : containsSub ('1' :: (((". TITLE: ").data) ++ t)) tokNumTitle = true := by
    have h0 : containsSub ((("1. TITLE: ").data) ++ t) tokNumTitle = true :=
      containsSub_append_left t (by decide)
    exact h0
  have hd : ('1'.isDigit && containsSub ('1' :: (((". TITLE: ").data) ++ t)) tokNumTitle)
      = true := by
    rw [show '1'.isDigit = true from rfl, hcont]
    rfl
  obtain ⟨tv, htv⟩ := splitTailE_ok ('1' :: (((". TITLE: ").data) ++ t)) tokTitle (by decide)
  refine ⟨tv, ?_⟩
  simp only [processLineE, hstrip]
  rw [if_neg hne, if_neg (bfalse hH), if_neg (bfalse hC), if_neg (bfalse hAS),
    if_neg (bfalse hSP)]
  show articlesStep ⟨rh, rc, ra, rp, .articles, ca, cp⟩ ('1' :: (((". TITLE: ").data) ++ t)) = _
  simp only [articlesStep]
  rw [if_pos hd, htv]

theorem stepTitle2 {t : Line} (ht : goodField t) (rh rc : Line) (ra : List PArt)
    (rp : List PPost) (ca : PArt) (cp : PPost) :
    ∃ tv, processLineE ⟨rh, rc, ra, rp, .articles, ca, cp⟩ ((("2. TITLE: ").data) ++ t)
      = .ok ⟨rh, rc, flushArt ra ca, rp, .articles, { title := some tv }, cp⟩ := by
  have hstrip := pyStrip_tok_append '2' (("2. TITLE: ").data) rfl (by decide) ht
  have hne : ¬(((("2. TITLE: ").data) ++ t).isEmpty = true) := by
    rw [List.isEmpty_iff]
    exact append_ne_nil_left t (by decide)
  have hH : startsWithL ((("2. TITLE: ").data) ++ t) tokHeadline = false :=
    isPrefixOf_append_false t 1 (by decide) (by decide)
  have hC : startsWithL ((("2. TITLE: ").data) ++ t) tokCombined = false :=
    isPrefixOf_append_false t 1 (by decide) (by decide)
  have hAS : startsWithL ((("2. TITLE: ").data) ++ t) tokArticleSummaries = false :=
    isPrefixOf_append_false t 1 (by decide) (by decide)
  have hSP : startsWithL ((("2. TITLE: ").data) ++ t) tokSocialPosts = false :=
    isPrefixOf_append_false t 1 (by decide) (by decide)
  have hcont : containsSub ('2' :: (((". TITLE: ").data) ++ t)) tokNumTitle = true := by
    have h0 : containsSub ((("2. TITLE: ").data) ++ t) tokNumTitle = true :=
      containsSub_append_left t (by decide)
    exact h0
  have hd : ('2'.isDigit && containsSub ('2' :: (((". TITLE: ").data) ++ t)) tokNumTitle)
      = true := by
    rw [show '2'.isDigit = true from rfl, hcont]
    rfl
  obtain ⟨tv, htv⟩ := splitTailE_ok ('2' :: (((". TITLE: ").data) ++ t)) tokTitle (by decide)
  refine ⟨tv, ?_⟩
  simp only [processLineE, hstrip]
  rw [if_neg hne, if_neg (bfalse hH), if_neg (bfalse hC), if_neg (bfalse hAS),
    if_neg (bfalse hSP)]
  show articlesStep ⟨rh, rc, ra, rp, .articles, ca, cp⟩ ('2' :: (((". TITLE: ").data) ++ t)) = _
  simp only [articlesStep]
  rw [if_pos hd, htv]

theorem stepTitle3 {t : Line} (ht : goodField t) (rh rc : Line) (ra : List PArt)
    (rp : List PPost) (ca : PArt) (cp : PPost) :
    ∃ tv, processLineE ⟨rh, rc, ra, rp, .articles, ca, cp⟩ ((("3. TITLE: ").data) ++ t)
      = .ok ⟨rh, rc, flushArt ra ca, rp, .articles, { title := some tv }, cp⟩ := by
  have hstrip := pyStrip_tok_append '3' (("3. TITLE: ").data) rfl (by decide) ht
  have hne : ¬(((("3. TITLE: ").data) ++ t).isEmpty = true) := by
    rw [List.isEmpty_iff]
    exact append_ne_nil_left t (by decide)
  have hH : startsWithL ((("3. TITLE: ").data) ++ t) tokHeadline = false :=
    isPrefixOf_append_false t 1 (by decide) (by decide)
  have hC : startsWithL ((("3. TITLE: ").data) ++ t) tokCombined = false :=
    isPrefixOf_append_false t 1 (by decide) (by decide)
  have hAS : startsWithL ((("3. TITLE: ").data) ++ t) tokArticleSummaries = false :=
    isPrefixOf_append_false t 1 (by decide) (by decide)
  have hSP : startsWithL ((("3. TITLE: ").data) ++ t) tokSocialPosts = false :=
    isPrefixOf_append_false t 1 (by decide) (by decide)
  have hcont : containsSub ('3' :: (((". TITLE: ").data) ++ t)) tokNumTitle = true := by
    have h0 : containsSub ((("3. TITLE: ").data) ++ t) tokNumTitle = true :=
      containsSub_append_left t (by decide)
    exact h0
  have hd : ('3'.isDigit && containsSub ('3' :: (((". TITLE: ").data) ++ t)) tokNumTitle)
      = true := by
    rw [show '3'.isDigit = true from rfl, hcont]
    rfl
  obtain ⟨tv, htv⟩ := splitTailE_ok ('3' :: (((". TITLE: ").data) ++ t)) tokTitle (by decide)
  refine ⟨tv, ?_⟩
  simp only [processLineE, hstrip]
  rw [if_neg hne, if_neg (bfalse hH), if_neg (bfalse hC), if_neg (bfalse hAS),
    if_neg (bfalse hSP)]
  show articlesStep ⟨rh, rc, ra, rp, .articles, ca, cp⟩ ('3' :: (((". TITLE: ").data) ++ t)) = _
  simp only [articlesStep]
  rw [if_pos hd, htv]

theorem runLines_cons_ok {st st' : PState} {l : Line} {ls : List Line}
    (h : processLineE st l = .ok st') : runLines st (l :: ls) = runLines st' ls := by
  rw [runLines, h]

set_option maxHeartbeats 1000000 in
/-- C1: for every well-formed grammar reply for 3 input articles, the
Digest Parser produces exactly 3 `article_summaries` records, and the
i-th record's `url` is backfilled from the i-th input article — whatever
URL text the reply's fields carry. -/
theorem parser_three_records (A1 A2 A3 : Article)
    (h c t1 a1 s1 t2 a2 s2 t3 a3 s3 : Line)
    (hgh : goodField h) (hgc : goodField c)
    (hgt1 : goodField t1) (hga1 : goodField a1) (hgs1 : goodField s1)
    (hgt2 : goodField t2) (hga2 : goodField a2) (hgs2 : goodField s2)
    (hgt3 : goodField t3) (hga3 : goodField a3) (hgs3 : goodField s3) :
    ∃ d, parseResponse (wfReply3 h c t1 a1 s1 t2 a2 s2 t3 a3 s3) [A1, A2, A3] = .ok d
      ∧ d.articleSummaries.length = 3
      ∧ d.articleSummaries.map SumRec.url = [some A1.url, some A2.url, some A3.url] := by
  have hlast0 := getLast?_joinWith_last '\n'
    [("HEADLINE: ").data ++ h, [],
     ("COMBINED_SUMMARY: ").data ++ c, [],
     ("ARTICLE_SUMMARIES:").data,
     ("1. TITLE: ").data ++ t1, ("AUTHOR: ").data ++ a1, ("SUMMARY: ").data ++ s1, [],
     ("2. TITLE: ").data ++ t2, ("AUTHOR: ").data ++ a2, ("SUMMARY: ").data ++ s2, [],
     ("3. TITLE: ").data ++ t3, ("AUTHOR: ").data ++ a3]
    ((("SUMMARY: ").data) ++ s3) (append_ne_nil_left s3 (by decide))
  have hlast : (wfReply3 h c t1 a1 s1 t2 a2 s2 t3 a3 s3).getLast?
      = ((("SUMMARY: ").data) ++ s3).getLast? := hlast0
  have hstrip : pyStrip (wfReply3 h c t1 a1 s1 t2 a2 s2 t3 a3 s3)
      = wfReply3 h c t1 a1 s1 t2 a2 s2 t3 a3 s3 := by
    apply pyStrip_eq_self_of_ends
    · intro cc hcc
      rw [show (wfReply3 h c t1 a1 s1 t2 a2 s2 t3 a3 s3).head? = some 'H' from rfl] at hcc
      rw [← Option.some.inj hcc]
      decide
    · intro cc hcc
      rw [hlast, List.getLast?_append_of_ne_nil _ hgs3.1] at hcc
      exact goodField_last hgs3 cc hcc
  have hmem : ∀ l ∈ wfLines3 h c t1 a1 s1 t2 a2 s2 t3 a3 s3, '\n' ∉ l := by
    intro l hl
    simp only [wfLines3, List.mem_cons, List.not_mem_nil, or_false] at hl
    rcases hl with rfl | rfl | rfl | rfl | rfl | rfl | rfl | rfl | rfl | rfl | rfl | rfl
      | rfl | rfl | rfl | rfl
    all_goals first
      | decide
      | exact newline_not_mem_append (by decide) hgh.2.2
      | exact newline_not_mem_append (by decide) hgc.2.2
      | exact newline_not_mem_append (by decide) hgt1.2.2
      | exact newline_not_mem_append (by decide) hga1.2.2
      | exact newline_not_mem_append (by decide) hgs1.2.2
      | exact newline_not_mem_append (by decide) hgt2.2.2
      | exact newline_not_mem_append (by decide) hga2.2.2
      | exact newline_not_mem_append (by decide) hgs2.2.2
      | exact newline_not_mem_append (by decide) hgt3.2.2
      | exact newline_not_mem_append (by decide) hga3.2.2
      | exact newline_not_mem_append (by decide) hgs3.2.2
  have hsplit : splitOnChar '\n' (wfReply3 h c t1 a1 s1 t2 a2 s2 t3 a3 s3)
      = wfLines3 h c t1 a1 s1 t2 a2 s2 t3 a3 s3 :=
    splitOnChar_joinWith '\n' _ (by simp [wfLines3]) hmem
  simp only [parseResponse]
  rw [hstrip, hsplit]
  simp only [wfLines3]
  rw [runLines_cons_ok (stepHeadline hgh _),
    runLines_cons_ok (stepBlank _),
    runLines_cons_ok (stepCombined hgc _),
    runLines_cons_ok (stepBlank _),
    runLines_cons_ok (stepAS _),
    runLines_cons_ok (stepTitle1 hgt1 _ _ _ _ _ _).choose_spec,
    runLines_cons_ok (stepAuthor hga1 _ _ _ _ _ _).choose_spec,
    runLines_cons_ok (stepSummary hgs1 _ _ _ _ _ _).choose_spec,
    runLines_cons_ok (stepBlank _),
    runLines_cons_ok (stepTitle2 hgt2 _ _ _ _ _ _).choose_spec,
    runLines_cons_ok (stepAuthor hga2 _ _ _ _ _ _).choose_spec,
    runLines_cons_ok (stepSummary hgs2 _ _ _ _ _ _).choose_spec,
    runLines_cons_ok (stepBlank _),
    runLines_cons_ok (stepTitle3 hgt3 _ _ _ _ _ _).choose_spec,
    runLines_cons_ok (stepAuthor hga3 _ _ _ _ _ _).choose_spec,
    runLines_cons_ok (stepSummary hgs3 _ _ _ _ _ _).choose_spec,
    runLines]
  refine ⟨_, rfl, ?_, ?_⟩
  · simp [flushArt, pArtNonempty, backfillArts, initState]
  · simp [flushArt, pArtNonempty, backfillArts, initState]

/-- Witness for C1 at concrete field texts (one summary even carries a
URL of its own) and three concrete articles. -/
theorem parser_three_records_witness :
    (goodField (("Grand Themes").data)
      ∧ goodField (("This week examines things").data)
      ∧ goodField (("First").data) ∧ goodField (("Alice").data)
      ∧ goodField (("examines http://site.com/other stuff").data)
      ∧ goodField (("Second").data) ∧ goodField (("Bob").data)
      ∧ goodField (("argues stuff").data)
      ∧ goodField (("Third").data) ∧ goodField (("Cara").data)
      ∧ goodField (("traces stuff").data))
    ∧ ∃ d, parseResponse
          (wfReply3 (("Grand Themes").data) (("This week examines things").data)
            (("First").data) (("Alice").data)
            (("examines http://site.com/other stuff").data)
            (("Second").data) (("Bob").data) (("argues stuff").data)
            (("Third").data) (("Cara").data) (("traces stuff").data))
          [wArt1, wArt2, wArt3] = .ok d
        ∧ d.articleSummaries.length = 3
        ∧ d.articleSummaries.map SumRec.url
          = [some wArt1.url, some wArt2.url, some wArt3.url] :=
  ⟨⟨⟨by decide, by decide, by decide⟩, ⟨by decide, by decide, by decide⟩, ⟨by decide, by decide, by decide⟩, ⟨by decide, by decide, by decide⟩, ⟨by decide, by decide, by decide⟩, ⟨by decide, by decide, by decide⟩,
    ⟨by decide, by decide, by decide⟩, ⟨by decide, by decide, by decide⟩, ⟨by decide, by decide, by decide⟩, ⟨by decide, by decide, by decide⟩, ⟨by decide, by decide, by decide⟩⟩,
   parser_three_records wArt1 wArt2 wArt3 _ _ _ _ _ _ _ _ _ _ _
     ⟨by decide, by decide, by decide⟩ ⟨by decide, by decide, by decide⟩ ⟨by decide, by decide, by decide⟩ ⟨by decide, by decide, by decide⟩
     ⟨by decide, by decide, by decide⟩ ⟨by decide, by decide, by decide⟩ ⟨by decide, by decide, by decide⟩ ⟨by decide, by decide, by decide⟩
     ⟨by decide, by decide, by decide⟩ ⟨by decide, by decide, by decide⟩ ⟨by decide, by decide, by decide⟩⟩

/-! ## C7: the scrape orchestrator -/

theorem scrapeLoop_fst (count : Nat) (f : Line → Option Article) :
    ∀ (ls : List Line) (acc : List Article) (att : List Line),
      acc.length + (ls.filterMap f).length ≤ count →
      (scrapeLoop count f ls acc att).1 = acc ++ ls.filterMap f := by
  intro ls
  induction ls with
  | nil =>
    intro acc att _
    simp [scrapeLoop]
  | cons l rest ih =>
    intro acc att hle
    rw [scrapeLoop]
    by_cases hc : count ≤ acc.length
    · rw [if_pos hc]
      have hfm : (List.filterMap f (l :: rest)).length = 0 := by omega
      rw [List.length_eq_zero] at hfm
      simp [hfm]
    · rw [if_neg hc]
      cases hfl : f l with
      | some a =>
        have hfm : List.filterMap f (l :: rest) = a :: rest.filterMap f := by
          rw [List.filterMap_cons, hfl]
        rw [hfm] at hle ⊢
        simp only [List.length_cons] at hle
        have := ih (acc ++ [a]) (att ++ [l])
          (by simp only [List.length_append, List.length_cons, List.length_nil]; omega)
        rw [this]
        simp
      | none =>
        have hfm : List.filterMap f (l :: rest) = rest.filterMap f := by
          rw [List.filterMap_cons, hfl]
        rw [hfm] at hle ⊢
        exact ih acc (att ++ [l]) hle

theorem scrapeLoop_attempts_le (count : Nat) (f : Line → Option Article) :
    ∀ (ls : List Line) (acc : List Article) (att : List Line),
      (scrapeLoop count f ls acc att).2.length ≤ att.length + ls.length := by
  intro ls
  induction ls with
  | nil =>
    intro acc att
    simp [scrapeLoop]
  | cons l rest ih =>
    intro acc att
    rw [scrapeLoop]
    by_cases hc : count ≤ acc.length
    · rw [if_pos hc]
      simp only [List.length_cons]
      omega
    · rw [if_neg hc]
      cases hfl : f l with
      | some a =>
        have := ih (acc ++ [a]) (att ++ [l])
        simp only [List.length_append, List.length_cons, List.length_nil] at this ⊢
        omega
      | none =>
        have := ih acc (att ++ [l])
        simp only [List.length_append, List.length_cons, List.length_nil] at this ⊢
        omega

/-- C7 (amended): with `count = 5`, when exactly 2 of the first
`2 × count` candidates are extractable the orchestrator returns exactly
those 2 articles in discovery order without raising; when extraction
fails on every attempted candidate it raises the distinct "no articles"
failure; and in all cases at most `2 × count` candidates are attempted. -/
theorem scrape_orchestrator_behaviour :
    (∀ (links : List Line) (f : Line → Option Article),
        links ≠ [] →
        ((links.take (5 * 2)).filterMap f).length = 2 →
        scrapeArticles 5 links f = .ok ((links.take (5 * 2)).filterMap f))
    ∧ (∀ (links : List Line) (f : Line → Option Article),
        links ≠ [] →
        (∀ l ∈ links.take (5 * 2), f l = none) →
        scrapeArticles 5 links f = .error .noArticles)
    ∧ (∀ (count : Nat) (links : List Line) (f : Line → Option Article),
        (scrapeLoop count f (links.take (count * 2)) [] []).2.length ≤ count * 2) := by
  refine ⟨?_, ?_, ?_⟩
  · intro links f hne hlen
    unfold scrapeArticles
    rw [if_neg (by rwa [List.isEmpty_iff])]
    have hfst := scrapeLoop_fst 5 f (links.take (5 * 2)) [] []
      (by simp only [List.length_nil]; omega)
    rw [hfst]
    simp only [List.nil_append]
    rw [if_neg ?hne2]
    case hne2 =>
      rw [List.isEmpty_iff]
      intro hnil
      rw [hnil] at hlen
      simp at hlen
  · intro links f hne hall
    unfold scrapeArticles
    rw [if_neg (by rwa [List.isEmpty_iff])]
    have hfm : (links.take (5 * 2)).filterMap f = [] := by
      rw [List.filterMap_eq_nil_iff]
      exact hall
    have hfst := scrapeLoop_fst 5 f (links.take (5 * 2)) [] [] (by rw [hfm]; decide)
    rw [hfst, hfm]
    rfl
  · intro count links f
    have := scrapeLoop_attempts_le count f (links.take (count * 2)) [] []
    have hlt : (links.take (count * 2)).length ≤ count * 2 := by
      rw [List.length_take]
      omega
    simp at this
    omega

/-- C7 counterexample: a listing page with twelve candidates of which
exactly two (the eleventh and twelfth) are extractable — the claim as
stated promises those 2 articles, but the code attempts only the first
`2 × count` candidates and raises the "no articles" failure. -/
theorem scrape_orchestrator_cex :
    (cex7Links.filterMap cex7Extract).length = 2
    ∧ scrapeArticles 5 cex7Links cex7Extract = .error .noArticles :=
  ⟨by decide, rfl⟩

/-- Witness for C7 at concrete inputs: four candidates with two
extractable return exactly those two; twelve candidates whose first ten
all fail raise the "no articles" failure. -/
theorem scrape_orchestrator_behaviour_witness :
    (wit7Links ≠ [] ∧ ((wit7Links.take (5 * 2)).filterMap wit7Extract).length = 2
      ∧ scrapeArticles 5 wit7Links wit7Extract
        = .ok ((wit7Links.take (5 * 2)).filterMap wit7Extract))
    ∧ (cex7Links ≠ [] ∧ (∀ l ∈ cex7Links.take (5 * 2), cex7Extract l = none)
      ∧ scrapeArticles 5 cex7Links cex7Extract = .error .noArticles) :=
  ⟨⟨by decide, by decide,
    scrape_orchestrator_behaviour.1 wit7Links wit7Extract (by decide) (by decide)⟩,
   ⟨by decide, by decide,
    scrape_orchestrator_behaviour.2.1 cex7Links cex7Extract (by decide) (by decide)⟩⟩

/-! ## C8: the robots.txt check -/

theorem splitOnChar_pieces (sep : Char) :
    ∀ s : Line, ∃ hp tp, splitOnChar sep s = hp :: tp
      ∧ hp <+: s ∧ ∀ x ∈ hp :: tp, x <:+: s := by
  intro s
  induction s with
  | nil =>
    refine ⟨[], [], rfl, List.nil_prefix, ?_⟩
    intro x hx
    simp at hx
    simp [hx]
  | cons a tail ih =>
    obtain ⟨hp, tp, heq, hpre, hmem⟩ := ih
    by_cases ha : a = sep
    · subst ha
      refine ⟨[], hp :: tp, ?_, List.nil_prefix, ?_⟩
      · rw [splitOnChar, if_pos rfl, heq]
      · intro x hx
        rcases List.mem_cons.mp hx with hx | hx
        · simp [hx]
        · exact List.infix_cons (hmem x hx)
    · refine ⟨a :: hp, tp, ?_, ?_, ?_⟩
      · rw [splitOnChar, if_neg ha, heq]
      · exact List.cons_prefix_cons.mpr ⟨rfl, hpre⟩
      · intro x hx
        rcases List.mem_cons.mp hx with hx | hx
        · subst hx
          exact (List.cons_prefix_cons.mpr ⟨rfl, hpre⟩).isInfix
        · exact List.infix_cons (hmem x (List.mem_cons_of_mem hp hx))

theorem mem_splitOnChar_infix {sep : Char} {s x : Line}
    (h : x ∈ splitOnChar sep s) : x <:+: s := by
  obtain ⟨hp, tp, heq, _, hmem⟩ := splitOnChar_pieces sep s
  rw [heq] at h
  exact hmem x h

theorem robotsBlocked_of_hit :
    ∀ (lines : List Line) (i j : Nat) (li lj : Line),
      lines[i]? = some li → lines[j]? = some lj →
      containsSub li tokUAStar = true → pyStrip lj = tokDisallowSlash →
      i < j → j ≤ i + 4 → robotsBlocked lines = true := by
  intro lines
  induction lines with
  | nil =>
    intro i j li lj hli _ _ _ _ _
    simp at hli
  | cons l rest ih =>
    intro i j li lj hli hlj hua hstr hij hj4
    cases i with
    | zero =>
      have hl : l = li := by simpa using hli
      subst hl
      rw [robotsBlocked, Bool.or_eq_true]
      left
      rw [Bool.and_eq_true]
      refine ⟨hua, ?_⟩
      unfold robotsWindowHit
      rw [List.any_eq_true]
      cases j with
      | zero => omega
      | succ j' =>
        have hj' : rest[j']? = some lj := by
          rw [← List.getElem?_cons_succ (a := l)]
          exact hlj
        have hjt : (rest.take 4)[j']? = some lj := by
          rw [List.getElem?_take, if_pos (by omega)]
          exact hj'
        exact ⟨lj, List.getElem?_mem hjt, by simp [hstr]⟩
    | succ i' =>
      cases j with
      | zero => omega
      | succ j' =>
        rw [robotsBlocked, Bool.or_eq_true]
        right
        refine ih i' j' li lj ?_ ?_ hua hstr (by omega) (by omega)
        · rw [← List.getElem?_cons_succ (a := l)]
          exact hli
        · rw [← List.getElem?_cons_succ (a := l)]
          exact hlj

set_option maxHeartbeats 800000 in
/-- C8 (amended): the robots check returns `false` whenever some line of
the (lower-cased) body contains `user-agent: *` and is followed, within
the next 4 lines (a 5-line window including the user-agent line itself),
by an exact stripped `disallow: /` line; a body whose only blanket rule
is `Disallow: /private` under a different user-agent block yields `true`;
and a fetch failure defaults to `true` without raising. -/
theorem robots_check_behaviour :
    (∀ (body : Line) (i j : Nat) (li lj : Line),
        (splitOnChar '\n' (lowerL body))[i]? = some li →
        (splitOnChar '\n' (lowerL body))[j]? = some lj →
        containsSub li tokUAStar = true →
        pyStrip lj = tokDisallowSlash →
        i < j → j ≤ i + 4 →
        checkRobotsTxt (some (200, body)) = false)
    ∧ checkRobotsTxt (some (200, robotsOtherAgent)) = true
    ∧ checkRobotsTxt none = true := by
  refine ⟨?_, by decide, rfl⟩
  intro body i j li lj h1 h2 h3 h4 h5 h6
  have hliIn : li <:+: lowerL body := mem_splitOnChar_infix (List.getElem?_mem h1)
  have hljIn : lj <:+: lowerL body := mem_splitOnChar_infix (List.getElem?_mem h2)
  have hUAin : containsSub (lowerL body) tokUAStar = true :=
    containsSub_iff.mpr ((containsSub_iff.mp h3).trans hliIn)
  have hDisIn : containsSub (lowerL body) tokDisallowSlash = true := by
    apply containsSub_iff.mpr
    have : tokDisallowSlash <:+: lj := by
      rw [← h4]
      exact pyStrip_infix lj
    exact this.trans hljIn
  show (if (containsSub (lowerL body) tokDisallowSlash
            && containsSub (lowerL body) tokUAStar) = true then
          !robotsBlocked (splitOnChar '\n' (lowerL body))
        else true) = false
  rw [if_pos (by rw [hDisIn, hUAin]; rfl)]
  rw [robotsBlocked_of_hit (splitOnChar '\n' (lowerL body)) i j li lj h1 h2 h3 h4 h5 h6]
  rfl

/-- C8 counterexample: the `Disallow: /` line sits exactly five lines
after the `User-agent: *` line — "within 5 lines" on the claim's reading —
yet the check returns `true`, because the code scans only the 4 following
lines. -/
theorem robots_check_cex :
    (splitOnChar '\n' (lowerL robotsFar))[0]? = some (("user-agent: *").data)
    ∧ (splitOnChar '\n' (lowerL robotsFar))[5]? = some (("disallow: /").data)
    ∧ checkRobotsTxt (some (200, robotsFar)) = true := by
  refine ⟨by decide, by decide, by decide⟩

/-- Witness for C8 at the adjacent-lines body. -/
theorem robots_check_behaviour_witness :
    ((splitOnChar '\n' (lowerL robotsAdjacent))[0]? = some (("user-agent: *").data)
      ∧ (splitOnChar '\n' (lowerL robotsAdjacent))[1]? = some (("disallow: /").data)
      ∧ containsSub (("user-agent: *").data) tokUAStar = true
      ∧ pyStrip (("disallow: /").data) = tokDisallowSlash
      ∧ 0 < 1 ∧ 1 ≤ 0 + 4)
    ∧ checkRobotsTxt (some (200, robotsAdjacent)) = false :=
  ⟨⟨by decide, by decide, by decide, by decide, by decide, by decide⟩,
   robots_check_behaviour.1 robotsAdjacent 0 1 (("user-agent: *").data)
     (("disallow: /").data) (by decide) (by decide) (by decide) (by decide)
     (by decide) (by decide)⟩

/-! ## C9: the title cascade -/

theorem titleLoop_first_good :
    ∀ (pre : List (Option Line)) (t : Line) (rest : List (Option Line)) (acc : Line),
      (∀ x ∈ pre, badMatch x = true) →
      (!t.isEmpty && t.length < 300) = true →
      titleLoop (pre ++ some t :: rest) acc = t := by
  intro pre
  induction pre with
  | nil =>
    intro t rest acc _ hgood
    show titleLoop (some t :: rest) acc = t
    rw [titleLoop, if_pos hgood]
  | cons x pre' ih =>
    intro t rest acc hbad hgood
    have hx := hbad x (List.mem_cons_self x pre')
    have hpre' : ∀ y ∈ pre', badMatch y = true :=
      fun y hy => hbad y (List.mem_cons_of_mem x hy)
    cases x with
    | none =>
      show titleLoop (none :: (pre' ++ some t :: rest)) acc = t
      rw [titleLoop]
      exact ih t rest acc hpre' hgood
    | some u =>
      have hu : (!u.isEmpty && u.length < 300) = false := by
        have hx2 : (!(!u.isEmpty && decide (u.length < 300))) = true := hx
        cases hb : (!u.isEmpty && decide (u.length < 300)) with
        | false => rfl
        | true => rw [hb] at hx2; simp at hx2
      show titleLoop (some u :: (pre' ++ some t :: rest)) acc = t
      rw [titleLoop, if_neg (bfalse hu)]
      exact ih t rest u hpre' hgood

theorem titleLoop_all_bad :
    ∀ (ms : List (Option Line)) (acc : Line),
      (∀ x ∈ ms, badMatch x = true) →
      titleLoop ms acc = lastMatched ms acc := by
  intro ms
  induction ms with
  | nil =>
    intro acc _
    rfl
  | cons x ms' ih =>
    intro acc hbad
    have hx := hbad x (List.mem_cons_self x ms')
    have hms' : ∀ y ∈ ms', badMatch y = true :=
      fun y hy => hbad y (List.mem_cons_of_mem x hy)
    cases x with
    | none =>
      rw [titleLoop, lastMatched, List.foldl_cons]
      exact ih acc hms'
    | some u =>
      have hu : (!u.isEmpty && u.length < 300) = false := by
        have hx2 : (!(!u.isEmpty && decide (u.length < 300))) = true := hx
        cases hb : (!u.isEmpty && decide (u.length < 300)) with
        | false => rfl
        | true => rw [hb] at hx2; simp at hx2
      rw [titleLoop, if_neg (bfalse hu), lastMatched, List.foldl_cons]
      exact ih u hms'

/-- C9 (amended): the title cascade keeps the text of the first selector
match that is non-empty and under 300 characters; when no match passes
that check, the title is the text of the last matching selector (not
empty), so a page whose only title is 300 characters or longer can still
yield an Article. -/
theorem title_cascade_behaviour :
    (∀ (pre : List (Option Line)) (t : Line) (rest : List (Option Line))
        (am : List (Option Line)) (cm : List (Option ContentElem))
        (fb : Option (List Line)),
      (∀ x ∈ pre, badMatch x = true) →
      (!t.isEmpty && t.length < 300) = true →
      titleOf ⟨pre ++ some t :: rest, am, cm, fb⟩ = t)
    ∧ (∀ (ms am : List (Option Line)) (cm : List (Option ContentElem))
        (fb : Option (List Line)),
      (∀ x ∈ ms, badMatch x = true) →
      titleOf ⟨ms, am, cm, fb⟩ = lastMatched ms []) := by
  constructor
  · intro pre t rest am cm fb hbad hgood
    exact titleLoop_first_good pre t rest [] hbad hgood
  · intro ms am cm fb hbad
    exact titleLoop_all_bad ms [] hbad

set_option maxRecDepth 10000 in
/-- C9 counterexample: a page whose only title match is exactly 300
characters long — the claim says the resulting title is empty and no
Article is returned, but the code keeps the over-length text and returns
an Article carrying it. -/
theorem title_cascade_cex :
    longTitle.length = 300 ∧ longTitle ≠ []
    ∧ titleOf cex9Page = longTitle
    ∧ (scrapeArticlePage cex9Page (("http://a.com/x").data)).map Article.title
        = some longTitle :=
  ⟨by decide, by decide, rfl, rfl⟩

set_option maxRecDepth 10000 in
/-- Witness for C9: an over-length first match is skipped in favour of the
next good match, and a page with only bad matches keeps the last one. -/
theorem title_cascade_behaviour_witness :
    ((∀ x ∈ [some longTitle, (none : Option Line)], badMatch x = true)
      ∧ (!(("Good Title").data).isEmpty && (("Good Title").data).length < 300) = true
      ∧ titleOf ⟨[some longTitle, none] ++ some (("Good Title").data) :: [], [], [], none⟩
          = ("Good Title").data)
    ∧ ((∀ x ∈ [some longTitle], badMatch x = true)
      ∧ titleOf ⟨[some longTitle], [], [], none⟩ = lastMatched [some longTitle] []) :=
  ⟨⟨by decide, by decide,
    title_cascade_behaviour.1 [some longTitle, none] (("Good Title").data) [] [] [] none
      (by decide) (by decide)⟩,
   ⟨by decide,
    title_cascade_behaviour.2 [some longTitle] [] [] none (by decide)⟩⟩

/-! ## C6: extractor validity gate and clamps -/

/-- C6: the Article Extractor returns `None` whenever the extracted title
is empty, the content is empty, or the content is under 100 characters;
and any Article it returns has title, author and content clamped to 500,
100 and 10000 characters. -/
theorem extractor_validity (p : Page) (url : Line) :
    ((titleOf p = [] ∨ contentOf p = [] ∨ (contentOf p).length < 100) →
      scrapeArticlePage p url = none)
    ∧ (∀ a, scrapeArticlePage p url = some a →
        a.title.length ≤ 500 ∧ a.author.length ≤ 100 ∧ a.content.length ≤ 10000) := by
  constructor
  · intro hbad
    rcases hbad with hb | hb | hb <;> simp [scrapeArticlePage, hb]
  · intro a ha
    have ha2 : (if ((titleOf p).isEmpty || (contentOf p).isEmpty
          || decide ((contentOf p).length < 100)) = true then (none : Option Article)
        else some { title := (titleOf p).take 500, author := (authorOf p).take 100,
                    content := (contentOf p).take 10000, url := url }) = some a := ha
    split at ha2
    · exact absurd ha2 (by simp)
    · have hrec := Option.some.inj ha2
      refine ⟨?_, ?_, ?_⟩ <;> rw [← hrec] <;> simp [List.length_take]

/-- Witness for C6: an empty title cascade forces `None` even with valid
content. -/
theorem extractor_validity_witness :
    (titleOf wit6Page = [] ∨ contentOf wit6Page = []
      ∨ (contentOf wit6Page).length < 100)
    ∧ scrapeArticlePage wit6Page (("http://a.com/x").data) = none :=
  ⟨Or.inl rfl, (extractor_validity wit6Page (("http://a.com/x").data)).1 (Or.inl rfl)⟩

/-! ## C5: link discovery invariants -/

theorem not_mem_of_contains_false {L : List Line} {u : Line} (h : L.contains u = false) :
    u ∉ L := by
  intro hm
  have h2 : L.elem u = true := List.elem_iff.mpr hm
  have h3 : L.elem u = false := h
  rw [h2] at h3
  simp at h3

theorem nodup_append_singleton {L : List Line} {u : Line} (hN : L.Nodup) (hu : u ∉ L) :
    (L ++ [u]).Nodup := by
  rw [List.nodup_append]
  refine ⟨hN, List.nodup_singleton u, ?_⟩
  intro x hx hxu
  rw [List.mem_singleton] at hxu
  subst hxu
  exact hu hx

theorem contains_false_of_not_bang {L : List Line} {u : Line}
    (h : (!L.contains u) = true) : L.contains u = false := by
  cases hb : L.contains u with
  | false => rfl
  | true => rw [hb] at h; simp at h

theorem addCardLink_inv (baseUrl baseDomain : Line) {links : List Line} (x : Option Line)
    (h : linkInv baseDomain links) :
    linkInv baseDomain (addCardLink baseUrl baseDomain links x) := by
  cases x with
  | none => exact h
  | some href =>
    show linkInv baseDomain
      (if isArticleUrl (urljoin baseUrl href)
          && containsSub (netlocOf (urljoin baseUrl href)) baseDomain
          && !links.contains (urljoin baseUrl href) then
        links ++ [urljoin baseUrl href]
      else links)
    by_cases hcond : (isArticleUrl (urljoin baseUrl href)
        && containsSub (netlocOf (urljoin baseUrl href)) baseDomain
        && !links.contains (urljoin baseUrl href)) = true
    · rw [if_pos hcond]
      rw [Bool.and_eq_true, Bool.and_eq_true] at hcond
      obtain ⟨⟨hart, hdom⟩, hnc⟩ := hcond
      have hnm : urljoin baseUrl href ∉ links :=
        not_mem_of_contains_false (contains_false_of_not_bang hnc)
      refine ⟨nodup_append_singleton h.1 hnm, ?_⟩
      intro u hu
      rcases List.mem_append.mp hu with hm | hm
      · exact h.2 u hm
      · rw [List.mem_singleton] at hm
        subst hm
        exact ⟨hart, hdom⟩
    · rw [if_neg hcond]
      exact h

theorem foldl_inv {α : Type} {P : List Line → Prop} {f : List Line → α → List Line}
    (hf : ∀ L x, P L → P (f L x)) :
    ∀ (xs : List α) (L : List Line), P L → P (xs.foldl f L) := by
  intro xs
  induction xs with
  | nil =>
    intro L h
    exact h
  | cons x xs ih =>
    intro L h
    rw [List.foldl_cons]
    exact ih _ (hf L x h)

theorem cardStrategy_inv {baseUrl baseDomain : Line} :
    ∀ (selss : List (List (Option Line))) (links : List Line),
      linkInv baseDomain links →
      linkInv baseDomain (cardStrategy baseUrl baseDomain selss links) := by
  intro selss
  induction selss with
  | nil =>
    intro links h
    exact h
  | cons cards rest ih =>
    intro links h
    simp only [cardStrategy]
    split
    · exact ih links h
    · have h' := foldl_inv (fun L x hL => addCardLink_inv baseUrl baseDomain x hL) cards links h
      split
      · exact ih _ h'
      · exact h'

theorem addMainLink_inv (baseUrl baseDomain : Line) {links : List Line} (href : Line)
    (h : linkInv baseDomain links) :
    linkInv baseDomain (addMainLink baseUrl baseDomain links href) := by
  simp only [addMainLink]
  split
  · next hcond =>
    rw [Bool.and_eq_true, Bool.and_eq_true, Bool.and_eq_true] at hcond
    obtain ⟨-, ⟨hart, hdom⟩, hnc⟩ := hcond
    have hnm : urljoin baseUrl href ∉ links :=
      not_mem_of_contains_false (contains_false_of_not_bang hnc)
    refine ⟨nodup_append_singleton h.1 hnm, ?_⟩
    intro u hu
    rcases List.mem_append.mp hu with hm | hm
    · exact h.2 u hm
    · rw [List.mem_singleton] at hm
      subst hm
      exact ⟨hart, hdom⟩
  · exact h

theorem addWholePageLink_inv (baseUrl baseDomain : Line) {links : List Line} (href : Line)
    (h : linkInv baseDomain links) :
    linkInv baseDomain (addWholePageLink baseUrl baseDomain links href) := by
  simp only [addWholePageLink]
  by_cases h1 : (!containsSub (netlocOf (urljoin baseUrl href)) baseDomain) = true
  · rw [if_pos h1]
    exact h
  · rw [if_neg h1]
    by_cases h2 : (!isArticleUrl (urljoin baseUrl href)) = true
    · rw [if_pos h2]
      exact h
    · rw [if_neg h2]
      have hdom : containsSub (netlocOf (urljoin baseUrl href)) baseDomain = true := by
        cases hb : containsSub (netlocOf (urljoin baseUrl href)) baseDomain with
        | true => rfl
        | false => exact absurd (by rw [hb]; rfl) h1
      have hart : isArticleUrl (urljoin baseUrl href) = true := by
        cases hb : isArticleUrl (urljoin baseUrl href) with
        | true => rfl
        | false => exact absurd (by rw [hb]; rfl) h2
      split
      · exact h
      · split
        · split
          · next hnc =>
            have hnm : urljoin baseUrl href ∉ links :=
              not_mem_of_contains_false (contains_false_of_not_bang hnc)
            refine ⟨nodup_append_singleton h.1 hnm, ?_⟩
            intro u hu
            rcases List.mem_append.mp hu with hm | hm
            · exact h.2 u hm
            · rw [List.mem_singleton] at hm
              subst hm
              exact ⟨hart, hdom⟩
          · exact h
        · exact h

/-- C5 (amended): every list returned by Link Discovery, under every
strategy of the cascade, contains no duplicate URL, and every URL in it
passes `_is_article_url` (matches no exclusion entry) and has a netloc
that *contains the listing page's domain as a substring* — the code
checks `base_domain in netloc`, not equality. -/
theorem link_discovery_invariant (baseUrl : Line) (doc : SoupDoc) :
    (extractArticleLinks baseUrl doc).Nodup
    ∧ ∀ u ∈ extractArticleLinks baseUrl doc,
        isArticleUrl u = true
          ∧ containsSub (netlocOf u) (netlocOf baseUrl) = true := by
  have hbase : linkInv (netlocOf baseUrl) [] := by
    refine ⟨List.nodup_nil, ?_⟩
    intro u hu
    simp at hu
  have h1 : linkInv (netlocOf baseUrl)
      (cardStrategy baseUrl (netlocOf baseUrl) doc.cardSelCards []) :=
    cardStrategy_inv doc.cardSelCards [] hbase
  have h2 : linkInv (netlocOf baseUrl)
      (if (cardStrategy baseUrl (netlocOf baseUrl) doc.cardSelCards []).isEmpty then
        cardStrategy baseUrl (netlocOf baseUrl) doc.containerSelCards
          (cardStrategy baseUrl (netlocOf baseUrl) doc.cardSelCards [])
      else cardStrategy baseUrl (netlocOf baseUrl) doc.cardSelCards []) := by
    split
    · exact cardStrategy_inv _ _ h1
    · exact h1
  generalize hL2 : (if (cardStrategy baseUrl (netlocOf baseUrl) doc.cardSelCards []).isEmpty then
        cardStrategy baseUrl (netlocOf baseUrl) doc.containerSelCards
          (cardStrategy baseUrl (netlocOf baseUrl) doc.cardSelCards [])
      else cardStrategy baseUrl (netlocOf baseUrl) doc.cardSelCards []) = L2 at h2
  have h3 : linkInv (netlocOf baseUrl)
      (if L2.isEmpty then
        (match doc.mainContentAnchors with
          | some hrefs => hrefs.foldl (addMainLink baseUrl (netlocOf baseUrl)) L2
          | none => L2)
      else L2) := by
    split
    · cases doc.mainContentAnchors with
      | some hrefs =>
        exact foldl_inv (fun L x hL => addMainLink_inv baseUrl (netlocOf baseUrl) x hL) hrefs L2 h2
      | none => exact h2
    · exact h2
  generalize hL3 : (if L2.isEmpty then
        (match doc.mainContentAnchors with
          | some hrefs => hrefs.foldl (addMainLink baseUrl (netlocOf baseUrl)) L2
          | none => L2)
      else L2) = L3 at h3
  have h4 : linkInv (netlocOf baseUrl)
      (if L3.isEmpty then
        doc.allAnchors.foldl (addWholePageLink baseUrl (netlocOf baseUrl)) L3
      else L3) := by
    split
    · exact foldl_inv (fun L x hL => addWholePageLink_inv baseUrl (netlocOf baseUrl) x hL)
        doc.allAnchors L3 h3
    · exact h3
  have hfinal : linkInv (netlocOf baseUrl) (extractArticleLinks baseUrl doc) := by
    simp only [extractArticleLinks]
    rw [hL2, hL3]
    exact h4
  exact ⟨hfinal.1, hfinal.2⟩

/-- C5 counterexample: a card linking to `evila.com` passes the
`base_domain in netloc` substring check against base domain `a.com`, so
Link Discovery returns a URL whose domain is *not* equal to the listing
page's domain. -/
theorem link_discovery_domain_cex :
    extractArticleLinks cex5Base cex5Doc = [("http://evila.com/x/y").data]
    ∧ netlocOf (("http://evila.com/x/y").data) ≠ netlocOf cex5Base :=
  ⟨rfl, by decide⟩

/-- Witness for C5: the dedup/filter invariant evaluated on the concrete
single-card document. -/
theorem link_discovery_invariant_witness :
    (("http://evila.com/x/y").data) ∈ extractArticleLinks cex5Base cex5Doc
    ∧ isArticleUrl (("http://evila.com/x/y").data) = true
    ∧ containsSub (netlocOf (("http://evila.com/x/y").data)) (netlocOf cex5Base) = true :=
  ⟨by decide,
   ((link_discovery_invariant cex5Base cex5Doc).2 (("http://evila.com/x/y").data)
     (by decide)).1,
   ((link_discovery_invariant cex5Base cex5Doc).2 (("http://evila.com/x/y").data)
     (by decide)).2⟩

end ADigest
